import Mathlib

/-!
Verification of the two-stage Polish address-cleaning pipeline
(`czyszczenieadresu1.py`: voivodeship normalization;
`czyszczenieadresu2.py`: filling missing administrative fields from the
TERYT locality index and the court-jurisdiction index).

Python string primitives (`str.lower`, `str.upper`, NFKD decomposition
followed by removal of combining marks, `str.strip`, whitespace
collapsing with `re.sub(r"\s+", " ", ...)`) are embedded for the
character repertoire the program operates on: ASCII plus the Polish
diacritic letters.  Characters outside this repertoire are left
unchanged by the case and accent maps, which matches Python's behaviour
on every character that actually occurs in the program's data.  For the
analysis of the key normalizer itself a second, decomposition-aware
NFKD model (`nfkdStrip`) is also provided, in which a compatibility
character may decompose to several or differently-cased characters.
-/

set_option maxRecDepth 8192
set_option maxHeartbeats 1000000

/-- Pairs (upper, lower) modelling Python `str.lower` on ASCII letters
and the Polish diacritic letters. -/
def lowerPairs : List (Char × Char) :=
  [('A', 'a'), ('B', 'b'), ('C', 'c'), ('D', 'd'), ('E', 'e'), ('F', 'f'),
   ('G', 'g'), ('H', 'h'), ('I', 'i'), ('J', 'j'), ('K', 'k'), ('L', 'l'),
   ('M', 'm'), ('N', 'n'), ('O', 'o'), ('P', 'p'), ('Q', 'q'), ('R', 'r'),
   ('S', 's'), ('T', 't'), ('U', 'u'), ('V', 'v'), ('W', 'w'), ('X', 'x'),
   ('Y', 'y'), ('Z', 'z'),
   ('Ą', 'ą'), ('Ć', 'ć'), ('Ę', 'ę'), ('Ł', 'ł'), ('Ń', 'ń'), ('Ó', 'ó'),
   ('Ś', 'ś'), ('Ź', 'ź'), ('Ż', 'ż')]

/-- Pairs (lower, upper) modelling Python `str.upper` on the same
repertoire. -/
def upperPairs : List (Char × Char) :=
  [('a', 'A'), ('b', 'B'), ('c', 'C'), ('d', 'D'), ('e', 'E'), ('f', 'F'),
   ('g', 'G'), ('h', 'H'), ('i', 'I'), ('j', 'J'), ('k', 'K'), ('l', 'L'),
   ('m', 'M'), ('n', 'N'), ('o', 'O'), ('p', 'P'), ('q', 'Q'), ('r', 'R'),
   ('s', 'S'), ('t', 'T'), ('u', 'U'), ('v', 'V'), ('w', 'W'), ('x', 'X'),
   ('y', 'Y'), ('z', 'Z'),
   ('ą', 'Ą'), ('ć', 'Ć'), ('ę', 'Ę'), ('ł', 'Ł'), ('ń', 'Ń'), ('ó', 'Ó'),
   ('ś', 'Ś'), ('ź', 'Ź'), ('ż', 'Ż')]

/-- Characters with a Unicode canonical decomposition into a base letter
plus a combining mark, mapped to that base letter.  This models
`unicodedata.normalize("NFKD", ·)` followed by dropping combining
characters.  Crucially, `ł`/`Ł` (U+0142/U+0141, "l with stroke") have NO
decomposition mapping in Unicode — the stroke is not a combining mark —
so they are deliberately absent from this table and pass through
unchanged, exactly as in CPython's `unicodedata`. -/
def deaccentPairs : List (Char × Char) :=
  [('ą', 'a'), ('ć', 'c'), ('ę', 'e'), ('ń', 'n'), ('ó', 'o'), ('ś', 's'),
   ('ź', 'z'), ('ż', 'z'),
   ('Ą', 'A'), ('Ć', 'C'), ('Ę', 'E'), ('Ń', 'N'), ('Ó', 'O'), ('Ś', 'S'),
   ('Ź', 'Z'), ('Ż', 'Z')]

/-- Python `str.lower`, one character at a time (repertoire model). -/
def pyLower (c : Char) : Char := (lowerPairs.lookup c).getD c

/-- Python `str.upper`, one character at a time (repertoire model). -/
def pyUpper (c : Char) : Char := (upperPairs.lookup c).getD c

/-- NFKD decomposition + combining-mark removal, one character at a
time (repertoire model, see `deaccentPairs`). -/
def deaccent (c : Char) : Char := (deaccentPairs.lookup c).getD c

/-- Python's `\s` / `str.strip` whitespace class restricted to ASCII:
space, tab, newline, carriage return, vertical tab, form feed. -/
def isPySpace (c : Char) : Bool :=
  c == ' ' || c == '\t' || c == '\n' || c == '\r' ||
    c == Char.ofNat 11 || c == Char.ofNat 12

/-- Python `str.strip` on a character list. -/
def stripL (l : List Char) : List Char :=
  ((l.dropWhile isPySpace).reverse.dropWhile isPySpace).reverse

/-- Python `str.strip`. -/
def pyStrip (s : String) : String := ⟨stripL s.data⟩

/-- Python `str.lower` on a whole string. -/
def lowerStr (s : String) : String := ⟨s.data.map pyLower⟩

/-- Python `str.upper` on a whole string. -/
def upperStr (s : String) : String := ⟨s.data.map pyUpper⟩

/-- NFKD + combining-mark removal on a character list. -/
def deaccentL (l : List Char) : List Char := l.map deaccent

/-- Model of `re.sub(r"\s+", " ", ·)`: every maximal run of whitespace becomes a
single space (the run's last character position carries the space). -/
def squeezeWs : List Char → List Char
  | [] => []
  | c :: rest =>
    if isPySpace c then
      match rest with
      | [] => [' ']
      | d :: _ => if isPySpace d then squeezeWs rest else ' ' :: squeezeWs rest
    else c :: squeezeWs rest

/-- Python `str.replace(pat, rep)` (all non-overlapping occurrences,
scanned left to right), with an explicit fuel argument so that the
recursion is structural; the wrapper `replaceAll` supplies fuel equal to
the input length, which is sufficient for any non-empty pattern. -/
def replaceAllAux (pat rep : List Char) : Nat → List Char → List Char
  | _, [] => []
  | 0, l => l
  | Nat.succ fuel, c :: rest =>
    if pat.isPrefixOf (c :: rest) && !pat.isEmpty then
      rep ++ replaceAllAux pat rep fuel ((c :: rest).drop pat.length)
    else
      c :: replaceAllAux pat rep fuel rest

/-- Python `str.replace` on character lists (see `replaceAllAux`). -/
def replaceAll (pat rep l : List Char) : List Char :=
  replaceAllAux pat rep l.length l

/-- Split a list at every character satisfying `p`; pieces between two
adjacent delimiters are empty and are filtered out by all callers,
which makes this equivalent to `re.split` on a `+`-quantified class. -/
def splitOnPred (p : Char → Bool) (l : List Char) : List (List Char) :=
  l.foldr
    (fun c acc =>
      match acc with
      | [] => [[]]
      | cur :: rest => if p c then [] :: cur :: rest else (c :: cur) :: rest)
    [[]]

/-- Python truthiness for an optional string: `None` and `""` are falsy. -/
def truthyO (x : Option String) : Bool :=
  match x with
  | none => false
  | some s => !(s == "")

namespace Stage1

/-! Embedding of `czyszczenieadresu1.py`. -/

/-- The `MISSING_TOKENS` set of stage 1. -/
def MISSING_TOKENS : List String :=
  ["---", "--", "—", "-", "brak", "brak danych", "nan", "none", ""]

/-- The 49 historical (1975–1998) voivodeship names, normalized
(diacritic-free, lower case), mapped to their modern successors
(`HISTORICAL_VOIVODESHIP_MAP` before the variant loop). -/
def HISTORICAL_BASE : List (String × String) :=
  [("wroclawskie", "DOLNOŚLĄSKIE"), ("jeleniogorskie", "DOLNOŚLĄSKIE"),
   ("walbrzyskie", "DOLNOŚLĄSKIE"), ("legnickie", "DOLNOŚLĄSKIE"),
   ("bydgoskie", "KUJAWSKO-POMORSKIE"), ("torunskie", "KUJAWSKO-POMORSKIE"),
   ("wloclawskie", "KUJAWSKO-POMORSKIE"),
   ("lubelskie", "LUBELSKIE"), ("bialskopodlaskie", "LUBELSKIE"),
   ("chelmskie", "LUBELSKIE"), ("zamojskie", "LUBELSKIE"),
   ("zielonogorskie", "LUBUSKIE"), ("gorzowskie", "LUBUSKIE"),
   ("lodzkie", "ŁÓDZKIE"), ("piotrkowskie", "ŁÓDZKIE"),
   ("sieradzkie", "ŁÓDZKIE"), ("skierniewickie", "ŁÓDZKIE"),
   ("krakowskie", "MAŁOPOLSKIE"), ("tarnowskie", "MAŁOPOLSKIE"),
   ("nowosadeckie", "MAŁOPOLSKIE"),
   ("warszawskie", "MAZOWIECKIE"), ("plockie", "MAZOWIECKIE"),
   ("ciechanowskie", "MAZOWIECKIE"), ("ostroleckie", "MAZOWIECKIE"),
   ("siedleckie", "MAZOWIECKIE"), ("radomskie", "MAZOWIECKIE"),
   ("opolskie", "OPOLSKIE"),
   ("rzeszowskie", "PODKARPACKIE"), ("przemyskie", "PODKARPACKIE"),
   ("krosnienskie", "PODKARPACKIE"), ("tarnobrzeskie", "PODKARPACKIE"),
   ("bialostockie", "PODLASKIE"), ("lomzynskie", "PODLASKIE"),
   ("suwalskie", "PODLASKIE"),
   ("gdanskie", "POMORSKIE"), ("slupskie", "POMORSKIE"),
   ("katowickie", "ŚLĄSKIE"), ("bielskie", "ŚLĄSKIE"),
   ("czestochowskie", "ŚLĄSKIE"),
   ("kieleckie", "ŚWIĘTOKRZYSKIE"),
   ("olsztynskie", "WARMIŃSKO-MAZURSKIE"), ("elblaskie", "WARMIŃSKO-MAZURSKIE"),
   ("poznanskie", "WIELKOPOLSKIE"), ("kaliskie", "WIELKOPOLSKIE"),
   ("koninskie", "WIELKOPOLSKIE"), ("leszczynskie", "WIELKOPOLSKIE"),
   ("pilskie", "WIELKOPOLSKIE"),
   ("szczecinskie", "ZACHODNIOPOMORSKIE"), ("koszalinskie", "ZACHODNIOPOMORSKIE")]

/-- The `HISTORICAL_VOIVODESHIP_MAP` after the loop adding the
`"wojewodztwo X"` / `"X wojewodztwo"` variants.  Keys are pairwise
distinct, so association-list lookup models the Python dict. -/
def HISTORICAL_VOIVODESHIP_MAP : List (String × String) :=
  HISTORICAL_BASE
    ++ HISTORICAL_BASE.map (fun p => ("wojewodztwo " ++ p.1, p.2))
    ++ HISTORICAL_BASE.map (fun p => (p.1 ++ " wojewodztwo", p.2))

/-- Function `norm_missing` of stage 1: trim, then treat a missing token as
absent (the trimmed original is returned otherwise, case preserved). -/
def norm_missing (x : String) : Option String :=
  let s := pyStrip x
  if lowerStr s ∈ MISSING_TOKENS then none else some s

/-- Lift of `norm_missing` to an optional input (`None` stays `None`). -/
def normMissingOpt (x : Option String) : Option String := x.bind norm_missing

/-- Model of `re.sub(r"[^a-z\s]", " ", ·)`: any character that is neither an
ASCII lower-case letter nor whitespace becomes a space. -/
def scrubNonAlpha (l : List Char) : List Char :=
  l.map (fun c => if (('a' ≤ c ∧ c ≤ 'z') ∨ isPySpace c) then c else ' ')

/-- The stage-1 key pipeline applied after trimming and lower-casing:
deaccent, scrub non-letters, collapse whitespace, trim. -/
def kcore (L : List Char) : List Char :=
  stripL (squeezeWs (scrubNonAlpha (deaccentL L)))

/-- Function `norm_key` of stage 1: trim, lower-case, NFKD-deaccent, scrub
non-letters, collapse whitespace, trim; empty results become `None`. -/
def norm_key (s : String) : Option String :=
  if s = "" then none
  else
    let r := kcore ((stripL s.data).map pyLower)
    if r = [] then none else some ⟨r⟩

/-- Function `replace_historical_voivodeship`: resolve a historical voivodeship
name to its modern successor, falling back to upper-casing the input. -/
def replace_historical_voivodeship (val : Option String) : Option String :=
  match normMissingOpt val with
  | none => none
  | some v =>
    match norm_key v with
    | none => none
    | some key =>
      match HISTORICAL_VOIVODESHIP_MAP.lookup key with
      | some m => some m
      | none =>
        let key2 := pyStrip ⟨replaceAll "wojewodztwo ".data [] key.data⟩
        match HISTORICAL_VOIVODESHIP_MAP.lookup key2 with
        | some m => some m
        | none => some (upperStr v)

/-- The second branch of `replace_historical_voivodeship` expressed as a
function of the already-computed key (used to state case-insensitivity
uniformly over the 16 modern names). -/
def resolveFromKey (keyL : List Char) (v : String) : String :=
  match HISTORICAL_VOIVODESHIP_MAP.lookup (⟨keyL⟩ : String) with
  | some m => m
  | none =>
    match HISTORICAL_VOIVODESHIP_MAP.lookup (pyStrip ⟨replaceAll "wojewodztwo ".data [] keyL⟩) with
    | some m => m
    | none => upperStr v

/-- The 16 modern voivodeship names (the distinct values of
`HISTORICAL_VOIVODESHIP_MAP`, written in their dictionary lower case). -/
def modernRegionNames : List String :=
  ["dolnośląskie", "kujawsko-pomorskie", "lubelskie", "lubuskie",
   "łódzkie", "małopolskie", "mazowieckie", "opolskie", "podkarpackie",
   "podlaskie", "pomorskie", "śląskie", "świętokrzyskie",
   "warmińsko-mazurskie", "wielkopolskie", "zachodniopomorskie"]

end Stage1

namespace Stage2

/-! Embedding of `czyszczenieadresu2.py`. -/

/-- The `MISSING_TOKENS` set of stage 2 (textually identical to stage 1's). -/
def MISSING_TOKENS : List String :=
  ["---", "--", "—", "-", "brak", "brak danych", "nan", "none", ""]

/-- Function `norm_missing` of stage 2. -/
def norm_missing (x : String) : Option String :=
  let s := pyStrip x
  if lowerStr s ∈ MISSING_TOKENS then none else some s

/-- Lift of `norm_missing` to an optional input (`None` stays `None`). -/
def normMissingOpt (x : Option String) : Option String := x.bind norm_missing

/-- Function `norm_key` of stage 2: trim, lower-case, NFKD-deaccent, collapse
whitespace, trim.  Unlike the stage-1 variant it keeps punctuation and
returns the empty string (not `None`) on empty input. -/
def norm_key (s : String) : String :=
  ⟨stripL (squeezeWs (deaccentL ((stripL s.data).map pyLower)))⟩

/-- Function `title_pl`: trim; first character upper-cased, rest unchanged. -/
def title_pl (s : String) : String :=
  match stripL s.data with
  | [] => ""
  | c :: rest => ⟨pyUpper c :: rest⟩

/-- An ASCII upper-case letter (`[A-Z]` on the already-upper-cased
input of `extract_court_code`). -/
def isUpperAlpha (c : Char) : Bool := 'A' ≤ c && c ≤ 'Z'

/-- An ASCII digit (`\d`). -/
def isDigitCh (c : Char) : Bool := '0' ≤ c && c ≤ '9'

/-- Function `extract_court_code`: match `^\s*([A-Z]{2}\d[A-Z])\s*/` against the
trimmed, upper-cased registry number and return the 4-character court
code (e.g. `"WR1K/00012345/6"` ↦ `"WR1K"`). -/
def extract_court_code (nr_kw : String) : Option String :=
  if nr_kw = "" then none
  else
    match ((stripL nr_kw.data).map pyUpper).dropWhile isPySpace with
    | a :: b :: c :: d :: rest =>
      if isUpperAlpha a && isUpperAlpha b && isDigitCh c && isUpperAlpha d then
        match rest.dropWhile isPySpace with
        | '/' :: _ => some ⟨[a, b, c, d]⟩
        | _ => none
      else none
    | _ => none

/-- Function `build_hint_text`: join the non-missing hint-column values of a row
with `" | "` (the row's hint cells are passed as a list, in the fixed
`HINT_COLS` order; an absent column is an absent cell). -/
def build_hint_text (cells : List (Option String)) : String :=
  String.intercalate " | " (cells.filterMap normMissingOpt)

/-- A segment delimiter of `SPLIT_RE = [|,;]+`. -/
def isDelim (c : Char) : Bool := c == '|' || c == ',' || c == ';'

/-- The street/estate/square keywords of the segment-prefix regex
`^(ul|ulica|al|aleja|os|osiedle|pl|plac)\.?\s+`, in the alternation
order of the source. -/
def STREET_KWS : List (List Char) :=
  [['u','l'], ['u','l','i','c','a'], ['a','l'], ['a','l','e','j','a'],
   ['o','s'], ['o','s','i','e','d','l','e'], ['p','l'], ['p','l','a','c']]

/-- Match `\s+` at the front: at least one whitespace character, then
drop the whole (greedy) run; `none` if the first character is not
whitespace. -/
def consumeSpaces1 : List Char → Option (List Char)
  | [] => none
  | c :: rest => if isPySpace c then some (rest.dropWhile isPySpace) else none

/-- Try one keyword of the prefix regex: the keyword, an optional `.`
(greedy, with backtracking), then `\s+`; returns the remainder after
the match. -/
def tryKw (kw : List Char) (l : List Char) : Option (List Char) :=
  if kw.isPrefixOf l then
    let r := l.drop kw.length
    match r with
    | '.' :: r2 => (consumeSpaces1 r2).orElse (fun _ => consumeSpaces1 r)
    | _ => consumeSpaces1 r
  else none

/-- Regex alternation over `STREET_KWS`, first full match wins. -/
def firstKwMatch : List (List Char) → List Char → Option (List Char)
  | [], _ => none
  | kw :: kws, l => (tryKw kw l).orElse (fun _ => firstKwMatch kws l)

/-- Model of `re.sub(r"^(ul|ulica|al|aleja|os|osiedle|pl|plac)\.?\s+", "", seg).strip()`
applied after `seg.strip()` (line 132–134 of the source). -/
def stripStreetPfx (seg : List Char) : List Char :=
  let t := stripL seg
  match firstKwMatch STREET_KWS t with
  | some r => stripL r
  | none => stripL t

/-- The normalized, non-empty segments of a hint, split on `[|,;]+`. -/
def hintSegs (hint : String) : List String :=
  (((splitOnPred isDelim hint.data).map (fun p => norm_key ⟨p⟩)).filter
    (fun s => s ≠ ""))

/-- Scan (already reversed) segments: strip the street prefix, return
the canonical name of the first segment whose key is a candidate.
Candidate keys always coincide with the canonical map's key set at both
call sites, so the `getD ""` default of the dictionary access is never
exercised on consistent inputs. -/
def segScan : List String → List String → List (String × String) → Option String
  | [], _, _ => none
  | seg :: rest, keys, canon =>
    let s : String := ⟨stripStreetPfx seg.data⟩
    if s ∈ keys then some ((canon.lookup s).getD "") else segScan rest keys canon

/-- The words of the normalized hint (`re.split(r"\s+", h)`, empties
dropped). -/
def hintWords (h : String) : List String :=
  ((splitOnPred isPySpace h.data).filter (fun w => w ≠ [])).map
    (fun w => (⟨w⟩ : String))

/-- Phrase `" ".join(words[i:i+n]).strip()` of the n-gram loop. -/
def ngramPhrase (words : List String) (n i : Nat) : String :=
  pyStrip (String.intercalate " " ((words.drop i).take n))

/-- First candidate among a list of phrases, in order. -/
def findFirstKey : List String → List String → List (String × String) → Option String
  | [], _, _ => none
  | p :: rest, keys, canon =>
    if p ∈ keys then some ((canon.lookup p).getD "") else findFirstKey rest keys canon

/-- One n of the n-gram loop: skip if the hint has fewer than `n` words
(`if len(words) < n: continue`), else scan offsets left to right. -/
def tryNgramLen (words : List String) (n : Nat) (keys : List String)
    (canon : List (String × String)) : Option String :=
  if words.length < n then none
  else findFirstKey ((List.range (words.length - n + 1)).map (ngramPhrase words n)) keys canon

/-- The n-gram loop over `n = 4, 3, 2, 1`. -/
def ngramScan : List Nat → List String → List String → List (String × String) → Option String
  | [], _, _, _ => none
  | n :: ns, words, keys, canon =>
    (tryNgramLen words n keys canon).orElse (fun _ => ngramScan ns words keys canon)

/-- Function `guess_miejscowosc_from_hint`: segment scan in reverse order first,
then word n-grams of the whole normalized hint for n = 4, 3, 2, 1. -/
def guess_miejscowosc_from_hint (hint : String) (keys : List String)
    (canon : List (String × String)) : Option String :=
  let h := norm_key hint
  if h = "" then none
  else
    match segScan (hintSegs hint).reverse keys canon with
    | some r => some r
    | none => ngramScan [4, 3, 2, 1] (hintWords h) keys canon

end Stage2

namespace Stage2

/-- One row of `teryt.csv` (columns `Wojewodztwo;Powiat;Gmina;Miejscowosc`;
the `Dzielnica` column is never read by the index builder). -/
structure TRow where
  wojewodztwo : String
  powiat : String
  gmina : String
  miejscowosc : String
deriving DecidableEq, Repr

/-- Model of `setdefault(k, []).append(v)` on an association list: append `v` to
the list stored under `k`, creating the binding if absent. -/
def appendAt (idx : List (String × List α)) (k : String) (v : α) :
    List (String × List α) :=
  match idx with
  | [] => [(k, [v])]
  | (k', vs) :: rest =>
    if k' = k then (k', vs ++ [v]) :: rest else (k', vs) :: appendAt rest k v

/-- The loop body accumulator of `build_teryt_index`: canonical-spelling
map (`setdefault`, first wins) and per-key row lists (append order =
input order). -/
def build_teryt_aux :
    List TRow → List (String × String) → List (String × List (String × String × String)) →
      List (String × String) × List (String × List (String × String × String))
  | [], canon, idx => (canon, idx)
  | r :: rest, canon, idx =>
    let m := pyStrip r.miejscowosc
    if m = "" then build_teryt_aux rest canon idx
    else
      let k := norm_key m
      if k = "" then build_teryt_aux rest canon idx
      else
        build_teryt_aux rest
          (if (canon.lookup k).isSome then canon else canon ++ [(k, m)])
          (appendAt idx k (pyStrip r.wojewodztwo, pyStrip r.powiat, pyStrip r.gmina))

/-- Function `build_teryt_index` (the key set is the canonical map's domain). -/
def build_teryt_index (rows : List TRow) :
    List (String × String) × List (String × List (String × String × String)) :=
  build_teryt_aux rows [] []

/-- First-occurrence deduplication (pandas `Series.unique`, Python
`set` cardinality via its member list). -/
def dedupAux : List String → List String → List String
  | [], _ => []
  | x :: rest, seen =>
    if x ∈ seen then dedupAux rest seen else x :: dedupAux rest (x :: seen)

/-- First-occurrence deduplication of a list. -/
def dedupFirst (l : List String) : List String := dedupAux l []

/-- The `court_to_woj` computation of `build_obszar_index` for one
jurisdiction-code group: `dropna` + `unique` on the raw region cells,
trim each, drop empty and `"nan"` values, and record the first value iff
the remaining set has exactly one member. -/
def obszarUniqueWoj (cells : List (Option String)) : Option String :=
  let vals0 := dedupFirst (cells.filterMap id)
  let vals1 := vals0.map pyStrip
  let vals2 := vals1.filter (fun w => w ≠ "" && !(lowerStr w == "nan"))
  if (dedupFirst vals2).length = 1 then vals2.head? else none

/-- A string regarded through `x or None`: empty becomes absent. -/
def strOrNone (s : String) : Option String := if s = "" then none else some s

/-- Function `fill_from_teryt`: resolve a locality key to its `(woj, powiat,
gmina)` tuple, preferring rows whose region matches `wanted_woj` (by
normalized comparison) and otherwise falling back to all rows; the
first row (input order) of the chosen list wins. -/
def fill_from_teryt (k : String) (wanted : Option String)
    (rowsIdx : List (String × List (String × String × String))) :
    Option String × Option String × Option String :=
  let rows := (rowsIdx.lookup k).getD []
  match rows with
  | [] => (none, none, none)
  | _ =>
    let rows2 :=
      if truthyO wanted then
        let w := norm_key (wanted.getD "")
        let filtered := rows.filter (fun t => norm_key t.1 = w)
        if filtered = [] then rows else filtered
      else rows
    match rows2.head? with
    | some (a, b, c) => (strOrNone a, strOrNone b, strOrNone c)
    | none => (none, none, none)

/-- One report row: the four administrative fields (after the
`norm_missing` column pass of lines 299–300 they are either `None` or a
non-missing string), the registry number (line 303 turns it into a
trimmed string, `""` when absent), and the hint-column cells in
`HINT_COLS` order. -/
structure Row where
  woj : Option String
  pow : Option String
  gmi : Option String
  mia : Option String
  kw : String
  hintCells : List (Option String)
deriving DecidableEq, Repr

/-- The reference indexes consumed by the completion loop:
`miejsc_key_to_canon` (`terytCanon`, whose domain `terytKeys` is the
`miejsc_keys_set`), `miejsc_to_rows` (`terytRows`), `court_to_woj` and
`court_to_miejsc` (per code: locality key ↦ `(woj, powiat, gmina,
miejscowość)`). -/
structure Indexes where
  terytKeys : List String
  terytCanon : List (String × String)
  terytRows : List (String × List (String × String × String))
  courtToWoj : List (String × String)
  courtToMiejsc : List (String × List (String × (String × String × String × String)))
deriving Repr

/-- Lines 322–326: if the region is missing and the registry number's
court code has a unique region, fill it (display-cased via `title_pl`;
the local variable keeps the raw value). -/
def step1 (cfg : Indexes) (r : Row) (woj0 : Option String) (court : Option String) :
    Row × Option String :=
  match court with
  | none => (r, woj0)
  | some cc =>
    if truthyO woj0 then (r, woj0)
    else
      match cfg.courtToWoj.lookup cc with
      | some w => ({ r with woj := some (title_pl w) }, some w)
      | none => (r, woj0)

/-- Lines 330–335: if the locality is missing, infer it from the hint
against the GLOBAL teryt index. -/
def step2 (cfg : Indexes) (r : Row) (mia0 : Option String) (hint : String) :
    Row × Option String :=
  if truthyO mia0 then (r, mia0)
  else
    match guess_miejscowosc_from_hint hint cfg.terytKeys cfg.terytCanon with
    | none => (r, mia0)
    | some g =>
      if g = "" then (r, mia0)
      else ({ r with mia := some (title_pl g) }, some g)

/-- The result of the jurisdiction-scoped step: the updated row and the
four local variables after lines 338–364. -/
structure LocalFill where
  row : Row
  mia : Option String
  woj : Option String
  pow : Option String
  gmi : Option String
deriving DecidableEq, Repr

/-- Lines 338–364: if the locality is STILL missing and the court code
has a locality sub-index, infer against it; on success additionally
fill any still-missing region/county/municipality from the matched
key's stored tuple. -/
def step3 (cfg : Indexes) (r : Row) (mia woj pw gm : Option String)
    (court : Option String) (hint : String) : LocalFill :=
  if truthyO mia then ⟨r, mia, woj, pw, gm⟩
  else
    match court with
    | none => ⟨r, mia, woj, pw, gm⟩
    | some cc =>
      match cfg.courtToMiejsc.lookup cc with
      | none => ⟨r, mia, woj, pw, gm⟩
      | some mmap =>
        match guess_miejscowosc_from_hint hint (mmap.map Prod.fst)
            (mmap.map (fun p => (p.1, p.2.2.2.2))) with
        | none => ⟨r, mia, woj, pw, gm⟩
        | some g =>
          if g = "" then ⟨r, mia, woj, pw, gm⟩
          else
            let rA := { r with mia := some (title_pl g) }
            let t := (mmap.lookup (norm_key g)).getD ("", "", "", "")
            let rB := if !truthyO woj && t.1 ≠ "" then
                { rA with woj := some (title_pl t.1) } else rA
            let wojB := if !truthyO woj && t.1 ≠ "" then some t.1 else woj
            let rC := if !truthyO pw && t.2.1 ≠ "" then
                { rB with pow := some (title_pl t.2.1) } else rB
            let powC := if !truthyO pw && t.2.1 ≠ "" then some t.2.1 else pw
            let rD := if !truthyO gm && t.2.2.1 ≠ "" then
                { rC with gmi := some (title_pl t.2.2.1) } else rC
            let gmiD := if !truthyO gm && t.2.2.1 ≠ "" then some t.2.2.1 else gm
            ⟨rD, some g, wojB, powC, gmiD⟩

/-- Lines 367–386: if a locality is known (original or inferred), fill
any still-missing region/county/municipality from the global teryt
index. -/
def step4 (cfg : Indexes) (r : Row) (mia woj pw gm : Option String) : Row :=
  if !truthyO mia then r
  else
    let mk := norm_key (mia.getD "")
    let f := fill_from_teryt mk woj cfg.terytRows
    let r1 := if !truthyO woj && f.1.isSome then
        { r with woj := some (title_pl (f.1.getD "")) } else r
    let r2 := if !truthyO pw && f.2.1.isSome then
        { r1 with pow := some (title_pl (f.2.1.getD "")) } else r1
    if !truthyO gm && f.2.2.isSome then
      { r2 with gmi := some (title_pl (f.2.2.getD "")) } else r2

/-- The per-row body of `main`'s completion loop (lines 311–404,
reporting counters omitted): the Record Completion Engine. -/
def completeRecord (cfg : Indexes) (r0 : Row) : Row :=
  let woj0 := normMissingOpt r0.woj
  let pow0 := normMissingOpt r0.pow
  let gmi0 := normMissingOpt r0.gmi
  let mia0 := normMissingOpt r0.mia
  let court := extract_court_code r0.kw
  let p1 := step1 cfg r0 woj0 court
  let hint := build_hint_text r0.hintCells
  let p2 := step2 cfg p1.1 mia0 hint
  let p3 := step3 cfg p2.1 p2.2 p1.2 pow0 gmi0 court hint
  step4 cfg p3.row p3.mia p3.woj p3.pow p3.gmi

/-- Modelled from claim C1's wording (NOT from the source): a variant
of `completeRecord` in which the Locality Inference Engine is run first
against the jurisdiction-scoped index and only then against the global
index.  Used solely to exhibit that the code's order differs. -/
def completeRecordClaimOrder (cfg : Indexes) (r0 : Row) : Row :=
  let woj0 := normMissingOpt r0.woj
  let pow0 := normMissingOpt r0.pow
  let gmi0 := normMissingOpt r0.gmi
  let mia0 := normMissingOpt r0.mia
  let court := extract_court_code r0.kw
  let p1 := step1 cfg r0 woj0 court
  let hint := build_hint_text r0.hintCells
  let p3 := step3 cfg p1.1 mia0 p1.2 pow0 gmi0 court hint
  let p2 := step2 cfg p3.row p3.mia hint
  step4 cfg p2.1 p2.2 p3.woj p3.pow p3.gmi

end Stage2

/-! ### Character-level lemmas -/

/-- A successful association-list lookup exhibits a member pair. -/
theorem lookup_mem {α β : Type} [BEq α] [LawfulBEq α] :
    ∀ {ps : List (α × β)} {c : α} {v : β}, ps.lookup c = some v → (c, v) ∈ ps := by
  intro ps
  induction ps with
  | nil => intro c v h; simp [List.lookup] at h
  | cons p rest ih =>
    intro c v h
    obtain ⟨k, b⟩ := p
    rw [List.lookup] at h
    split at h
    · next heq =>
      have hk : c = k := eq_of_beq heq
      cases h
      subst hk
      exact List.mem_cons_self _ _
    · exact List.mem_cons_of_mem _ (ih h)

/-- Python `str.upper` factors through `str.lower` on the repertoire. -/
theorem pyUpper_pyLower (c : Char) : pyUpper (pyLower c) = pyUpper c := by
  unfold pyLower
  cases h : lowerPairs.lookup c with
  | none => rfl
  | some v =>
    have hm : (c, v) ∈ lowerPairs := lookup_mem h
    have hall : ∀ p ∈ lowerPairs, pyUpper p.2 = pyUpper p.1 := by decide
    simpa using hall (c, v) hm

/-- Lower-casing does not change whether a character is whitespace. -/
theorem isPySpace_pyLower (c : Char) : isPySpace (pyLower c) = isPySpace c := by
  unfold pyLower
  cases h : lowerPairs.lookup c with
  | none => rfl
  | some v =>
    have hm : (c, v) ∈ lowerPairs := lookup_mem h
    have hall : ∀ p ∈ lowerPairs, isPySpace p.2 = false ∧ isPySpace p.1 = false := by
      decide
    have h2 := hall (c, v) hm
    simp only [Option.getD_some]
    rw [h2.1, h2.2]

/-- A character fixed by both `pyLower` and `deaccent`. -/
def goodChar (c : Char) : Prop := pyLower c = c ∧ deaccent c = c

instance goodChar.decPred : DecidablePred goodChar := fun c =>
  decidable_of_iff (pyLower c = c ∧ deaccent c = c) Iff.rfl

/-- The composite `deaccent ∘ pyLower` lands in the fixed set. -/
theorem goodChar_deaccent_pyLower (c : Char) : goodChar (deaccent (pyLower c)) := by
  unfold pyLower
  cases h : lowerPairs.lookup c with
  | none =>
    simp only [Option.getD_none]
    unfold deaccent
    cases h2 : deaccentPairs.lookup c with
    | none =>
      simp only [Option.getD_none]
      refine ⟨?_, ?_⟩
      · unfold pyLower; rw [h]; rfl
      · unfold deaccent; rw [h2]; rfl
    | some v =>
      have hm : (c, v) ∈ deaccentPairs := lookup_mem h2
      have hall : ∀ p ∈ deaccentPairs,
          (lowerPairs.lookup p.1).isSome = true ∨ goodChar p.2 := by decide
      rcases hall (c, v) hm with hl | hg
      · rw [h] at hl; simp at hl
      · simpa using hg
  | some u =>
    have hm : (c, u) ∈ lowerPairs := lookup_mem h
    have hall : ∀ p ∈ lowerPairs, goodChar (deaccent p.2) := by decide
    simpa using hall (c, u) hm

/-- The space character is fixed by both maps. -/
theorem goodChar_space : goodChar ' ' := by
  refine ⟨?_, ?_⟩ <;> rfl

/-! ### Strip and whitespace-collapse lemmas -/

theorem dropWhile_dropWhile (p : Char → Bool) (l : List Char) :
    (l.dropWhile p).dropWhile p = l.dropWhile p := by
  induction l with
  | nil => rfl
  | cons a rest ih =>
    by_cases h : p a
    · rw [List.dropWhile_cons, if_pos h, ih]
    · rw [List.dropWhile_cons, if_neg h, List.dropWhile_cons, if_neg h]

theorem head_not_of_dropWhile {p : Char → Bool} {l : List Char} {h : Char}
    (hh : (l.dropWhile p).head? = some h) : p h = false := by
  induction l with
  | nil => simp at hh
  | cons a rest ih =>
    by_cases hp : p a
    · rw [List.dropWhile_cons, if_pos hp] at hh; exact ih hh
    · rw [List.dropWhile_cons, if_neg hp] at hh
      simp only [List.head?_cons, Option.some.injEq] at hh
      subst hh
      exact Bool.not_eq_true _ |>.mp hp

theorem dropWhile_eq_self_of_head {p : Char → Bool} {l : List Char}
    (h : ∀ c, l.head? = some c → p c = false) : l.dropWhile p = l := by
  cases l with
  | nil => rfl
  | cons a rest =>
    have ha := h a rfl
    rw [List.dropWhile_cons, if_neg (by simp [ha])]

theorem dropWhile_eq_self_of_all {p : Char → Bool} {l : List Char}
    (h : ∀ c ∈ l, p c = false) : l.dropWhile p = l :=
  dropWhile_eq_self_of_head (fun c hc => by
    cases l with
    | nil => simp at hc
    | cons a rest =>
      simp only [List.head?_cons, Option.some.injEq] at hc
      exact hc ▸ h a (List.mem_cons_self a rest))

theorem getLast?_of_suffix {l₁ l₂ : List Char} (h : l₁ <:+ l₂) (hne : l₁ ≠ []) :
    l₂.getLast? = l₁.getLast? := by
  obtain ⟨t, rfl⟩ := h
  induction t with
  | nil => rfl
  | cons a t ih =>
    rw [List.cons_append, List.getLast?_cons]
    rw [ih]
    cases hl : l₁.getLast? with
    | none => exact absurd (List.getLast?_eq_none_iff.mp hl) hne
    | some x =>
      have : (t ++ l₁).getLast? = some x := ih.trans hl
      simp [this, hl]

theorem stripL_eq_self_of_all {l : List Char}
    (h : ∀ c ∈ l, isPySpace c = false) : stripL l = l := by
  unfold stripL
  rw [dropWhile_eq_self_of_all h,
    dropWhile_eq_self_of_all (fun c hc => h c (List.mem_reverse.mp hc)),
    List.reverse_reverse]

theorem mem_stripL {c : Char} {l : List Char} (h : c ∈ stripL l) : c ∈ l := by
  unfold stripL at h
  rw [List.mem_reverse] at h
  have h2 := (List.dropWhile_suffix _).sublist.subset h
  rw [List.mem_reverse] at h2
  exact (List.dropWhile_suffix _).sublist.subset h2

theorem stripL_idem (l : List Char) : stripL (stripL l) = stripL l := by
  by_cases hB : (l.dropWhile isPySpace).reverse.dropWhile isPySpace = []
  · unfold stripL
    rw [hB]
    rfl
  · have hA : l.dropWhile isPySpace ≠ [] := by
      intro hA
      rw [hA] at hB
      exact hB rfl
    have hhead : ∀ c, ((l.dropWhile isPySpace).reverse.dropWhile isPySpace).reverse.head? = some c →
        isPySpace c = false := by
      intro c hc
      rw [List.head?_reverse] at hc
      have hsuf := List.dropWhile_suffix (l := (l.dropWhile isPySpace).reverse) (p := isPySpace)
      have hgl := getLast?_of_suffix hsuf hB
      rw [hc] at hgl
      rw [List.getLast?_reverse] at hgl
      exact head_not_of_dropWhile hgl
    unfold stripL
    rw [dropWhile_eq_self_of_head hhead, List.reverse_reverse,
      dropWhile_dropWhile]

theorem mem_squeezeWs : ∀ (l : List Char) (c : Char), c ∈ squeezeWs l → c = ' ' ∨ c ∈ l := by
  intro l
  induction l with
  | nil => intro c h; simp [squeezeWs] at h
  | cons a rest ih =>
    intro c h
    by_cases ha : isPySpace a
    · cases rest with
      | nil =>
        simp [squeezeWs, ha] at h
        exact Or.inl h
      | cons d rest2 =>
        by_cases hd : isPySpace d
        · rw [show squeezeWs (a :: d :: rest2) = squeezeWs (d :: rest2) by
            simp [squeezeWs, ha, hd]] at h
          rcases ih c h with h1 | h1
          · exact Or.inl h1
          · exact Or.inr (List.mem_cons_of_mem _ h1)
        · rw [show squeezeWs (a :: d :: rest2) = ' ' :: squeezeWs (d :: rest2) by
            simp [squeezeWs, ha, hd]] at h
          rcases List.mem_cons.mp h with h1 | h1
          · exact Or.inl h1
          · rcases ih c h1 with h2 | h2
            · exact Or.inl h2
            · exact Or.inr (List.mem_cons_of_mem _ h2)
    · rw [show squeezeWs (a :: rest) = a :: squeezeWs rest by
        cases rest with
        | nil => simp [squeezeWs, ha]
        | cons d r2 => simp [squeezeWs, ha]] at h
      rcases List.mem_cons.mp h with h1 | h1
      · exact Or.inr (h1 ▸ List.mem_cons_self _ _)
      · rcases ih c h1 with h2 | h2
        · exact Or.inl h2
        · exact Or.inr (List.mem_cons_of_mem _ h2)

/-- No two adjacent whitespace characters. -/
def noDblSp (a b : Char) : Prop := ¬(isPySpace a = true ∧ isPySpace b = true)

/-- The invariant produced by `squeezeWs`: every whitespace character
is a plain space and no two whitespace characters are adjacent. -/
def wsNormal (l : List Char) : Prop :=
  (∀ c ∈ l, isPySpace c = true → c = ' ') ∧ List.Chain' noDblSp l

theorem squeezeWs_cons_not_space {a : Char} {rest : List Char} (ha : isPySpace a = false) :
    squeezeWs (a :: rest) = a :: squeezeWs rest := by
  cases rest with
  | nil => simp [squeezeWs, ha]
  | cons d r2 => simp [squeezeWs, ha]

theorem squeezeWs_wsNormal : ∀ l : List Char, wsNormal (squeezeWs l) := by
  intro l
  induction l with
  | nil =>
    exact ⟨fun c hc => by simp [squeezeWs] at hc, by simp [squeezeWs]⟩
  | cons a rest ih =>
    by_cases ha : isPySpace a
    · cases rest with
      | nil =>
        refine ⟨fun c hc _ => ?_, ?_⟩
        · simp [squeezeWs, ha] at hc; exact hc
        · simp [squeezeWs, ha]
      | cons d rest2 =>
        by_cases hd : isPySpace d
        · rw [show squeezeWs (a :: d :: rest2) = squeezeWs (d :: rest2) by
            simp [squeezeWs, ha, hd]]
          exact ih
        · have hdf : isPySpace d = false := Bool.not_eq_true _ |>.mp hd
          rw [show squeezeWs (a :: d :: rest2) = ' ' :: squeezeWs (d :: rest2) by
            simp [squeezeWs, ha, hd]]
          refine ⟨fun c hc hsp => ?_, ?_⟩
          · rcases List.mem_cons.mp hc with h1 | h1
            · exact h1
            · exact ih.1 c h1 hsp
          · refine List.chain'_cons'.mpr ⟨fun y hy => ?_, ih.2⟩
            rw [squeezeWs_cons_not_space hdf] at hy
            simp only [List.head?_cons, Option.mem_def, Option.some.injEq] at hy
            subst hy
            exact fun hcon => by rw [hdf] at hcon; exact Bool.false_ne_true hcon.2
    · have haf : isPySpace a = false := Bool.not_eq_true _ |>.mp ha
      rw [squeezeWs_cons_not_space haf]
      refine ⟨fun c hc hsp => ?_, ?_⟩
      · rcases List.mem_cons.mp hc with h1 | h1
        · rw [h1] at hsp; rw [haf] at hsp; exact absurd hsp (Bool.false_ne_true)
        · exact ih.1 c h1 hsp
      · refine List.chain'_cons'.mpr ⟨fun y _ => ?_, ih.2⟩
        exact fun hcon => by rw [haf] at hcon; exact Bool.false_ne_true hcon.1

theorem wsNormal_tail {a : Char} {rest : List Char} (h : wsNormal (a :: rest)) :
    wsNormal rest :=
  ⟨fun c hc => h.1 c (List.mem_cons_of_mem _ hc), (List.chain'_cons'.mp h.2).2⟩

theorem squeezeWs_eq_self_of_wsNormal : ∀ {l : List Char}, wsNormal l → squeezeWs l = l := by
  intro l
  induction l with
  | nil => intro _; rfl
  | cons a rest ih =>
    intro hw
    by_cases ha : isPySpace a
    · have haSp : a = ' ' := hw.1 a (List.mem_cons_self _ _) ha
      cases rest with
      | nil => simp [squeezeWs, ha, haSp]
      | cons d rest2 =>
        have hchain := (List.chain'_cons'.mp hw.2).1 d (by simp)
        have hd : isPySpace d = false := by
          by_contra hcon
          exact hchain ⟨ha, Bool.not_eq_false _ |>.mp hcon⟩
        have : squeezeWs (a :: d :: rest2) = ' ' :: squeezeWs (d :: rest2) := by
          simp [squeezeWs, ha, hd]
        rw [this, ih (wsNormal_tail hw), haSp]
    · have haf : isPySpace a = false := Bool.not_eq_true _ |>.mp ha
      rw [squeezeWs_cons_not_space haf, ih (wsNormal_tail hw)]

theorem noDblSp_flip : flip noDblSp = noDblSp := by
  funext a b
  unfold flip noDblSp
  exact propext ⟨fun h hc => h ⟨hc.2, hc.1⟩, fun h hc => h ⟨hc.2, hc.1⟩⟩

theorem wsNormal_dropWhile {l : List Char} (h : wsNormal l) :
    wsNormal (l.dropWhile isPySpace) := by
  refine ⟨fun c hc => h.1 c ((List.dropWhile_suffix _).sublist.subset hc), ?_⟩
  obtain ⟨t, ht⟩ := List.dropWhile_suffix (l := l) (p := isPySpace)
  have h2 := h.2
  rw [← ht] at h2
  exact (List.chain'_append.mp h2).2.1

theorem wsNormal_reverse {l : List Char} (h : wsNormal l) : wsNormal l.reverse := by
  refine ⟨fun c hc => h.1 c (List.mem_reverse.mp hc), ?_⟩
  rw [List.chain'_reverse, noDblSp_flip]
  exact h.2

theorem wsNormal_stripL {l : List Char} (h : wsNormal l) : wsNormal (stripL l) := by
  unfold stripL
  exact wsNormal_reverse (wsNormal_dropWhile (wsNormal_reverse (wsNormal_dropWhile h)))

theorem map_eq_self_of_all {f : Char → Char} {l : List Char}
    (h : ∀ c ∈ l, f c = c) : l.map f = l := by
  induction l with
  | nil => rfl
  | cons a rest ih =>
    rw [List.map_cons, h a (List.mem_cons_self _ _),
      ih (fun c hc => h c (List.mem_cons_of_mem _ hc))]

/-- Pairs mapping a character to its Unicode NFKD decomposition with
combining marks removed, as a character LIST: the Polish diacritic
letters decompose to their single base letter (exactly as in
`deaccentPairs`), while compatibility characters such as `№` (U+2116,
decomposition `"No"`) and `ℕ` (U+2115, decomposition `"N"`) decompose
to several or to differently-cased characters.  Characters outside the
table decompose to themselves. -/
def nfkdPairs : List (Char × List Char) :=
  deaccentPairs.map (fun p => (p.1, [p.2])) ++ [('№', ['N', 'o']), ('ℕ', ['N'])]

/-- NFKD decomposition + combining-mark removal of one character, as a
character list (decomposition-aware model; see `nfkdPairs`). -/
def nfkdStrip (c : Char) : List Char := (nfkdPairs.lookup c).getD [c]

/-- NFKD decomposition + combining-mark removal of a character list,
decomposition-aware. -/
def nfkdStripL (l : List Char) : List Char := l.flatMap nfkdStrip

/-- The stage-2 `norm_key` pipeline (trim, lower-case, NFKD-deaccent,
collapse whitespace, trim) under the decomposition-aware NFKD model
`nfkdStripL`: the faithful embedding of the source's
`unicodedata.normalize("NFKD", ·)` step also on characters whose
decomposition is not a single base letter.  On text whose characters
all decompose to single characters it coincides with
`Stage2.norm_key` (see `norm_keyU_eq_norm_key`). -/
def norm_keyU (s : String) : String :=
  ⟨stripL (squeezeWs (nfkdStripL ((stripL s.data).map pyLower)))⟩

theorem nfkdStripL_eq_deaccentL :
    ∀ (l : List Char), (∀ c ∈ l, nfkdStrip c = [deaccent c]) →
      nfkdStripL l = deaccentL l := by
  intro l
  induction l with
  | nil => intro _; rfl
  | cons a rest ih =>
    intro h
    unfold nfkdStripL deaccentL
    rw [List.flatMap_cons, h a (List.mem_cons_self _ _), List.map_cons]
    have h2 := ih (fun c hc => h c (List.mem_cons_of_mem _ hc))
    unfold nfkdStripL deaccentL at h2
    rw [h2]
    rfl

/-- On input whose case-folded characters decompose to the single
character of `deaccentPairs`, the decomposition-aware pipeline and
`Stage2.norm_key` agree. -/
theorem norm_keyU_eq_norm_key (s : String)
    (h : ∀ c ∈ (stripL s.data).map pyLower, nfkdStrip c = [deaccent c]) :
    norm_keyU s = Stage2.norm_key s := by
  show (⟨stripL (squeezeWs (nfkdStripL ((stripL s.data).map pyLower)))⟩ : String) =
    (⟨stripL (squeezeWs (deaccentL ((stripL s.data).map pyLower)))⟩ : String)
  rw [nfkdStripL_eq_deaccentL _ h]

/-- A character is decomposition-tame when its case fold decomposes to
characters that are themselves fixed by the case fold and by
decomposition.  Every ASCII and Polish letter is tame; `№` and `ℕ` are
not, because their decompositions introduce an upper-case `N` after
lower-casing has already run. -/
def tameChar (c : Char) : Prop :=
  ∀ d ∈ nfkdStrip (pyLower c), pyLower d = d ∧ nfkdStrip d = [d]

instance tameChar.decPred : DecidablePred tameChar := fun c =>
  decidable_of_iff (∀ d ∈ nfkdStrip (pyLower c), pyLower d = d ∧ nfkdStrip d = [d]) Iff.rfl

theorem flatMap_singleton_eq_self {f : Char → List Char} :
    ∀ {l : List Char}, (∀ c ∈ l, f c = [c]) → l.flatMap f = l := by
  intro l
  induction l with
  | nil => intro _; rfl
  | cons a rest ih =>
    intro h
    rw [List.flatMap_cons, h a (List.mem_cons_self _ _),
      ih (fun c hc => h c (List.mem_cons_of_mem _ hc))]
    rfl

/-- C10 infrastructure: every character of a decomposition-aware
normalized key of a tame string is fixed by `pyLower` and by
`nfkdStrip`. -/
theorem norm_keyU_chars_tame (s : String) (h : ∀ c ∈ s.data, tameChar c) :
    ∀ c ∈ stripL (squeezeWs (nfkdStripL ((stripL s.data).map pyLower))),
      pyLower c = c ∧ nfkdStrip c = [c] := by
  intro c hc
  have h1 := mem_stripL hc
  rcases mem_squeezeWs _ _ h1 with h2 | h2
  · subst h2
    exact ⟨goodChar_space.1, rfl⟩
  · unfold nfkdStripL at h2
    rw [List.mem_flatMap] at h2
    obtain ⟨a, ha, hca⟩ := h2
    obtain ⟨b, hb, rfl⟩ := List.mem_map.mp ha
    exact h b (mem_stripL hb) c hca

/-- C10 counterexample: the stage-2 key normalizer is NOT idempotent in
general.  Lower-casing runs BEFORE NFKD decomposition, and a character
with no lower-case mapping may decompose to upper-case letters: `№`
(U+2116) has no lower case but decomposes to `"No"`, so the first pass
yields `"No"` and only a second pass lower-cases it to `"no"`; `ℕ`
(U+2115) behaves the same way via `"N"`.  This matches CPython, where
`norm_key("№") == "No"` and `norm_key("No") == "no"`. -/
theorem C10_norm_key_not_idempotent :
    norm_keyU "№" = "No" ∧
    norm_keyU (norm_keyU "№") = "no" ∧
    norm_keyU (norm_keyU "№") ≠ norm_keyU "№" ∧
    norm_keyU "ℕ" = "N" ∧ norm_keyU (norm_keyU "ℕ") = "n" := by
  decide

/-- C10 (amended): the stage-2 key normalizer is idempotent on every
input whose characters are decomposition-tame (`tameChar`) — in
particular on all ASCII and Polish-letter text. -/
theorem C10_norm_key_idempotent_tame (s : String) (h : ∀ c ∈ s.data, tameChar c) :
    norm_keyU (norm_keyU s) = norm_keyU s := by
  have hgood := norm_keyU_chars_tame s h
  have hws : wsNormal (stripL (squeezeWs (nfkdStripL ((stripL s.data).map pyLower)))) :=
    wsNormal_stripL (squeezeWs_wsNormal _)
  show (⟨stripL (squeezeWs (nfkdStripL ((stripL (norm_keyU s).data).map pyLower)))⟩ : String) =
    norm_keyU s
  have hdata : (norm_keyU s).data =
      stripL (squeezeWs (nfkdStripL ((stripL s.data).map pyLower))) := rfl
  rw [hdata, stripL_idem]
  rw [map_eq_self_of_all (fun c hc => (hgood c hc).1)]
  rw [show nfkdStripL (stripL (squeezeWs (nfkdStripL ((stripL s.data).map pyLower)))) =
      stripL (squeezeWs (nfkdStripL ((stripL s.data).map pyLower))) from
    flatMap_singleton_eq_self (fun c hc => (hgood c hc).2)]
  rw [squeezeWs_eq_self_of_wsNormal hws, stripL_idem]
  rfl

/-- Witness for the amended C10 on Polish-letter text. -/
theorem C10_norm_key_idempotent_tame_witness :
    (∀ c ∈ ("Nowy Sącz" : String).data, tameChar c) ∧
    norm_keyU (norm_keyU "Nowy Sącz") = norm_keyU "Nowy Sącz" :=
  ⟨by decide, C10_norm_key_idempotent_tame "Nowy Sącz" (by decide)⟩

/-! ### Claim C3: historical-name resolution and the `ł` defect -/

/-- C3 (code_bug): the code's own docstrings promise `PŁOCKIE ->
MAZOWIECKIE`, but NFKD leaves `ł` intact and the `[^a-z\s]` scrub turns
it into a space, so `"PŁOCKIE"` normalizes to `"p ockie"`, misses the
historical map, and falls through to the literal upper-case fallback.
The ASCII spelling `"plockie"` does resolve, which shows the map entry
itself is reachable and the defect is confined to the `ł` handling. -/
theorem C3_plockie_resolution_bug :
    Stage1.replace_historical_voivodeship (some "PŁOCKIE") = some "PŁOCKIE" ∧
    Stage1.replace_historical_voivodeship (some "płockie") = some "PŁOCKIE" ∧
    Stage1.replace_historical_voivodeship (some "PŁOCKIE") ≠ some "MAZOWIECKIE" ∧
    Stage1.norm_key "PŁOCKIE" = some "p ockie" ∧
    Stage1.HISTORICAL_VOIVODESHIP_MAP.lookup "plockie" = some "MAZOWIECKIE" ∧
    Stage1.replace_historical_voivodeship (some "plockie") = some "MAZOWIECKIE" := by
  decide

/-! ### Claim C4: reverse segment scan -/

/-- C4: segments are scanned last-to-first after stripping a leading
street prefix; with any candidate set whose only matching key among the
segments is `"warszawa"` (canonical `"Warszawa"`), both orders of the
hint return `"Warszawa"`. -/
theorem C4_segment_reverse_scan (keys : List String) (canon : List (String × String))
    (h1 : "warszawa" ∈ keys) (h2 : canon.lookup "warszawa" = some "Warszawa")
    (h3 : "kwiatowa 5" ∉ keys) :
    Stage2.guess_miejscowosc_from_hint "Warszawa | ul. Kwiatowa 5" keys canon =
        some "Warszawa" ∧
    Stage2.guess_miejscowosc_from_hint "ul. Kwiatowa 5 | Warszawa" keys canon =
        some "Warszawa" := by
  have hs1 : (⟨Stage2.stripStreetPfx "ul. kwiatowa 5".data⟩ : String) = "kwiatowa 5" := by
    decide
  have hs2 : (⟨Stage2.stripStreetPfx "warszawa".data⟩ : String) = "warszawa" := by decide
  constructor
  · have hne : ¬(Stage2.norm_key "Warszawa | ul. Kwiatowa 5" = "") := by decide
    have hseg : (Stage2.hintSegs "Warszawa | ul. Kwiatowa 5").reverse =
        ["ul. kwiatowa 5", "warszawa"] := by decide
    unfold Stage2.guess_miejscowosc_from_hint
    rw [if_neg hne, hseg]
    unfold Stage2.segScan
    rw [hs1, if_neg h3]
    unfold Stage2.segScan
    rw [hs2, if_pos h1, h2]
    rfl
  · have hne : ¬(Stage2.norm_key "ul. Kwiatowa 5 | Warszawa" = "") := by decide
    have hseg : (Stage2.hintSegs "ul. Kwiatowa 5 | Warszawa").reverse =
        ["warszawa", "ul. kwiatowa 5"] := by decide
    unfold Stage2.guess_miejscowosc_from_hint
    rw [if_neg hne, hseg]
    unfold Stage2.segScan
    rw [hs2, if_pos h1, h2]
    rfl

/-- Witness for C4 at the concrete single-candidate index. -/
theorem C4_segment_reverse_scan_witness :
    Stage2.guess_miejscowosc_from_hint "Warszawa | ul. Kwiatowa 5" ["warszawa"]
        [("warszawa", "Warszawa")] = some "Warszawa" ∧
    Stage2.guess_miejscowosc_from_hint "ul. Kwiatowa 5 | Warszawa" ["warszawa"]
        [("warszawa", "Warszawa")] = some "Warszawa" :=
  C4_segment_reverse_scan ["warszawa"] [("warszawa", "Warszawa")]
    (by decide) (by decide) (by decide)

/-! ### Claim C5: n-gram stage order -/

/-- All contiguous `n`-grams of `words` in offset order (empty when the
hint has fewer than `n` words), as described by the specification. -/
def ngramsOfLen (words : List String) (n : Nat) : List String :=
  (List.range (words.length + 1 - n)).map (Stage2.ngramPhrase words n)

theorem findFirstKey_append (a b keys : List String) (canon : List (String × String)) :
    Stage2.findFirstKey (a ++ b) keys canon =
      (Stage2.findFirstKey a keys canon).orElse
        (fun _ => Stage2.findFirstKey b keys canon) := by
  induction a with
  | nil => rfl
  | cons p rest ih =>
    by_cases h : p ∈ keys
    · simp only [List.cons_append, Stage2.findFirstKey, if_pos h]
      rfl
    · simp only [List.cons_append, Stage2.findFirstKey, if_neg h]
      exact ih

theorem tryNgramLen_eq_findFirstKey (words keys : List String)
    (canon : List (String × String)) (n : Nat) :
    Stage2.tryNgramLen words n keys canon =
      Stage2.findFirstKey (ngramsOfLen words n) keys canon := by
  unfold Stage2.tryNgramLen ngramsOfLen
  by_cases h : words.length < n
  · rw [if_pos h]
    have h0 : words.length + 1 - n = 0 := by omega
    rw [h0]
    rfl
  · rw [if_neg h]
    have h1 : words.length - n + 1 = words.length + 1 - n := by omega
    rw [h1]

theorem ngramScan_eq_findFirstKey (ns : List Nat) (words keys : List String)
    (canon : List (String × String)) :
    Stage2.ngramScan ns words keys canon =
      Stage2.findFirstKey (ns.flatMap (ngramsOfLen words)) keys canon := by
  induction ns with
  | nil => rfl
  | cons n rest ih =>
    rw [List.flatMap_cons, findFirstKey_append]
    unfold Stage2.ngramScan
    rw [ih, tryNgramLen_eq_findFirstKey]

/-- C5: the n-gram stage is exactly a first-match scan over the
concatenation of all 4-grams, 3-grams, 2-grams and 1-grams in that
order, each block in left-to-right offset order; and on the hint
`"ul. Długa, Nowy Sącz"` with candidates for both `"sącz"` and
`"nowy sącz"` the engine returns `"Nowy Sącz"` (in whichever order the
candidate map lists them, and also when no delimiter is present so
that only the n-gram stage can match). -/
theorem C5_ngram_order :
    (∀ (words keys : List String) (canon : List (String × String)),
      Stage2.ngramScan [4, 3, 2, 1] words keys canon =
        Stage2.findFirstKey ([4, 3, 2, 1].flatMap (ngramsOfLen words)) keys canon) ∧
    Stage2.guess_miejscowosc_from_hint "ul. Długa, Nowy Sącz" ["sacz", "nowy sacz"]
        [("sacz", "Sącz"), ("nowy sacz", "Nowy Sącz")] = some "Nowy Sącz" ∧
    Stage2.guess_miejscowosc_from_hint "ul. Długa, Nowy Sącz" ["sacz", "nowy sacz"]
        [("nowy sacz", "Nowy Sącz"), ("sacz", "Sącz")] = some "Nowy Sącz" ∧
    Stage2.guess_miejscowosc_from_hint "ul. Długa Nowy Sącz" ["sacz", "nowy sacz"]
        [("sacz", "Sącz"), ("nowy sacz", "Nowy Sącz")] = some "Nowy Sącz" := by
  refine ⟨fun words keys canon => ngramScan_eq_findFirstKey _ _ _ _, ?_, ?_, ?_⟩ <;> decide

/-! ### Claim C9: modern names resolve to their upper case -/

theorem map_upper_congr {a b : List Char} (h : a.map pyLower = b.map pyLower) :
    a.map pyUpper = b.map pyUpper := by
  have key : ∀ l : List Char, l.map pyUpper = (l.map pyLower).map pyUpper := by
    intro l
    rw [List.map_map]
    exact List.map_congr_left (fun c _ => (pyUpper_pyLower c).symm)
  rw [key a, key b, h]

theorem nonspace_of_map_lower {s L : List Char} (hm : s.map pyLower = L)
    (hL : ∀ c ∈ L, isPySpace c = false) : ∀ c ∈ s, isPySpace c = false := by
  intro c hc
  have h1 : pyLower c ∈ L := hm ▸ List.mem_map_of_mem _ hc
  have h2 := hL _ h1
  rw [← isPySpace_pyLower]
  exact h2

/-- The whole resolution path for an input that case-folds to a fixed
whitespace-free, non-missing name `N`: the result is determined by the
stage-1 key of the folded name, via `Stage1.resolveFromKey`. -/
theorem resolve_via_key (s N : String)
    (h : s.data.map pyLower = N.data.map pyLower)
    (hns : ∀ c ∈ N.data.map pyLower, isPySpace c = false)
    (hne : N.data ≠ [])
    (hmiss : (⟨N.data.map pyLower⟩ : String) ∉ Stage1.MISSING_TOKENS)
    (hcore : Stage1.kcore (N.data.map pyLower) ≠ []) :
    Stage1.replace_historical_voivodeship (some s) =
      some (Stage1.resolveFromKey (Stage1.kcore (N.data.map pyLower)) N) := by
  have hsns : ∀ c ∈ s.data, isPySpace c = false := nonspace_of_map_lower h hns
  have hstrip : stripL s.data = s.data := stripL_eq_self_of_all hsns
  have hsne : s ≠ "" := by
    intro h0
    rw [h0] at h
    exact hne (List.map_eq_nil_iff.mp h.symm)
  have hlow : lowerStr (pyStrip s) = (⟨N.data.map pyLower⟩ : String) := by
    show (⟨(stripL s.data).map pyLower⟩ : String) = _
    rw [hstrip, h]
  have hnm : Stage1.norm_missing s = some s := by
    show (if lowerStr (pyStrip s) ∈ Stage1.MISSING_TOKENS then none else some (pyStrip s)) =
      some s
    rw [hlow, if_neg hmiss]
    show some (⟨stripL s.data⟩ : String) = some s
    rw [hstrip]
  have hkey : Stage1.norm_key s = some ⟨Stage1.kcore (N.data.map pyLower)⟩ := by
    show (if s = "" then none
      else if Stage1.kcore ((stripL s.data).map pyLower) = [] then none
      else some (⟨Stage1.kcore ((stripL s.data).map pyLower)⟩ : String)) =
      some (⟨Stage1.kcore (N.data.map pyLower)⟩ : String)
    rw [if_neg hsne, hstrip, h, if_neg hcore]
  have h1 : Stage1.normMissingOpt (some s) = some s := hnm
  unfold Stage1.replace_historical_voivodeship
  simp only [h1, hkey]
  unfold Stage1.resolveFromKey
  cases hl1 : Stage1.HISTORICAL_VOIVODESHIP_MAP.lookup
      (⟨Stage1.kcore (N.data.map pyLower)⟩ : String) with
  | some m => simp [hl1]
  | none =>
    simp only [hl1]
    cases hl2 : Stage1.HISTORICAL_VOIVODESHIP_MAP.lookup
        (pyStrip ⟨replaceAll "wojewodztwo ".data [] (Stage1.kcore (N.data.map pyLower))⟩) with
    | some m => simp [hl2]
    | none =>
      simp only [hl2]
      show some (upperStr s) = some (upperStr N)
      exact congrArg (fun l => some (⟨l⟩ : String)) (map_upper_congr h)

/-- C9: any input equal, case-insensitively, to one of the 16 modern
region names resolves to that name fully upper-cased (case-insensitive
equality is expressed as equality of the character-wise case folds). -/
theorem C9_modern_names_upper (s N : String)
    (hN : N ∈ Stage1.modernRegionNames)
    (h : s.data.map pyLower = N.data.map pyLower) :
    Stage1.replace_historical_voivodeship (some s) = some (upperStr N) := by
  fin_cases hN <;>
    exact (resolve_via_key s _ h (by decide) (by decide) (by decide) (by decide)).trans
      (by decide)

/-- Witness for C9 at `"KUJAWSKO-POMORSKIE"`. -/
theorem C9_modern_names_upper_witness :
    "kujawsko-pomorskie" ∈ Stage1.modernRegionNames ∧
    Stage1.replace_historical_voivodeship (some "KUJAWSKO-POMORSKIE") =
      some (upperStr "kujawsko-pomorskie") :=
  ⟨by decide,
    C9_modern_names_upper "KUJAWSKO-POMORSKIE" "kujawsko-pomorskie" (by decide) (by decide)⟩

/-! ### Claim C7: locality index construction -/

theorem norm_key_pyStrip (x : String) : Stage2.norm_key (pyStrip x) = Stage2.norm_key x := by
  show (⟨stripL (squeezeWs (deaccentL ((stripL (stripL x.data)).map pyLower)))⟩ : String) = _
  rw [stripL_idem]
  rfl

theorem norm_key_eq_empty_of_strip {x : String} (h : pyStrip x = "") :
    Stage2.norm_key x = "" := by
  have hd : stripL x.data = [] := congrArg String.data h
  show (⟨stripL (squeezeWs (deaccentL ((stripL x.data).map pyLower)))⟩ : String) = ""
  rw [hd]
  rfl

theorem lookup_appendAt_self {α : Type} (idx : List (String × List α)) (k : String) (v : α) :
    (Stage2.appendAt idx k v).lookup k = some (((idx.lookup k).getD []) ++ [v]) := by
  induction idx with
  | nil => simp [Stage2.appendAt, List.lookup]
  | cons p rest ih =>
    obtain ⟨k', vs⟩ := p
    by_cases h : k' = k
    · subst h
      simp [Stage2.appendAt, List.lookup]
    · rw [Stage2.appendAt, if_neg h]
      have hb := beq_eq_false_iff_ne.mpr (fun he => h he.symm)
      simp [List.lookup, hb, ih]

theorem lookup_appendAt_ne {α : Type} (idx : List (String × List α)) (k k2 : String) (v : α)
    (h : k2 ≠ k) : (Stage2.appendAt idx k2 v).lookup k = idx.lookup k := by
  induction idx with
  | nil => simp [Stage2.appendAt, List.lookup, beq_eq_false_iff_ne.mpr (fun he => h he.symm)]
  | cons p rest ih =>
    obtain ⟨k', vs⟩ := p
    by_cases h2 : k' = k2
    · subst h2
      rw [Stage2.appendAt, if_pos rfl]
      simp [List.lookup, beq_eq_false_iff_ne.mpr (fun he => h he.symm)]
    · rw [Stage2.appendAt, if_neg h2]
      by_cases h3 : k' = k
      · subst h3
        simp [List.lookup]
      · have hb := beq_eq_false_iff_ne.mpr (fun he => h3 he.symm)
        simp [List.lookup, hb, ih]

theorem lookup_snoc_self (canon : List (String × String)) (k m : String)
    (h : canon.lookup k = none) : (canon ++ [(k, m)]).lookup k = some m := by
  induction canon with
  | nil => simp [List.lookup]
  | cons p rest ih =>
    obtain ⟨k', v⟩ := p
    by_cases h2 : k' = k
    · subst h2
      simp [List.lookup] at h
    · have hb := beq_eq_false_iff_ne.mpr (fun he => h2 he.symm)
      rw [List.lookup, hb] at h
      simp only [List.cons_append, List.lookup, hb]
      exact ih h

theorem lookup_snoc_ne (canon : List (String × String)) (k k2 m : String) (h : k2 ≠ k) :
    (canon ++ [(k2, m)]).lookup k = canon.lookup k := by
  induction canon with
  | nil => simp [List.lookup, beq_eq_false_iff_ne.mpr (fun he => h he.symm)]
  | cons p rest ih =>
    obtain ⟨k', v⟩ := p
    by_cases h2 : k' = k
    · subst h2
      simp [List.lookup]
    · have hb := beq_eq_false_iff_ne.mpr (fun he => h2 he.symm)
      simp only [List.cons_append, List.lookup, hb]
      exact ih

/-- The rows of the reference table that produce locality key `k`. -/
def terytKeyIs (k : String) (r : Stage2.TRow) : Bool := Stage2.norm_key r.miejscowosc == k

theorem build_teryt_aux_canon (k : String) (hk : k ≠ "") :
    ∀ (rows : List Stage2.TRow) (canon : List (String × String))
      (idx : List (String × List (String × String × String))),
    (Stage2.build_teryt_aux rows canon idx).1.lookup k =
      (canon.lookup k).or
        (((rows.filter (terytKeyIs k)).map (fun r => pyStrip r.miejscowosc)).head?) := by
  intro rows
  induction rows with
  | nil =>
    intro canon idx
    cases h : canon.lookup k <;> simp [Stage2.build_teryt_aux, h]
  | cons r rest ih =>
    intro canon idx
    by_cases hm : pyStrip r.miejscowosc = ""
    · have hnk : terytKeyIs k r = false := by
        unfold terytKeyIs
        rw [norm_key_eq_empty_of_strip hm]
        exact beq_eq_false_iff_ne.mpr (fun he => hk he.symm)
      rw [show Stage2.build_teryt_aux (r :: rest) canon idx =
          Stage2.build_teryt_aux rest canon idx by
        simp [Stage2.build_teryt_aux, hm]]
      rw [List.filter_cons_of_neg (by simp [hnk])]
      exact ih canon idx
    · by_cases hk2 : Stage2.norm_key (pyStrip r.miejscowosc) = ""
      · have hnk : terytKeyIs k r = false := by
          unfold terytKeyIs
          rw [← norm_key_pyStrip, hk2]
          exact beq_eq_false_iff_ne.mpr (fun he => hk he.symm)
        rw [show Stage2.build_teryt_aux (r :: rest) canon idx =
            Stage2.build_teryt_aux rest canon idx by
          simp [Stage2.build_teryt_aux, hm, hk2]]
        rw [List.filter_cons_of_neg (by simp [hnk])]
        exact ih canon idx
      · by_cases hkk : Stage2.norm_key (pyStrip r.miejscowosc) = k
        · have hpos : terytKeyIs k r = true := by
            unfold terytKeyIs
            rw [← norm_key_pyStrip, hkk]
            exact beq_self_eq_true k
          rw [show Stage2.build_teryt_aux (r :: rest) canon idx =
              Stage2.build_teryt_aux rest
                (if (canon.lookup (Stage2.norm_key (pyStrip r.miejscowosc))).isSome then canon
                 else canon ++ [(Stage2.norm_key (pyStrip r.miejscowosc), pyStrip r.miejscowosc)])
                (Stage2.appendAt idx (Stage2.norm_key (pyStrip r.miejscowosc))
                  (pyStrip r.wojewodztwo, pyStrip r.powiat, pyStrip r.gmina)) by
            simp [Stage2.build_teryt_aux, hm, hk2]]
          rw [List.filter_cons_of_pos hpos, hkk, ih]
          cases hc : canon.lookup k with
          | some x =>
            rw [if_pos (by simp [hc])]
            simp [hc]
          | none =>
            rw [if_neg (by simp [hc])]
            rw [lookup_snoc_self canon k _ hc]
            simp
        · have hneg : terytKeyIs k r = false := by
            unfold terytKeyIs
            rw [← norm_key_pyStrip]
            exact beq_eq_false_iff_ne.mpr hkk
          rw [show Stage2.build_teryt_aux (r :: rest) canon idx =
              Stage2.build_teryt_aux rest
                (if (canon.lookup (Stage2.norm_key (pyStrip r.miejscowosc))).isSome then canon
                 else canon ++ [(Stage2.norm_key (pyStrip r.miejscowosc), pyStrip r.miejscowosc)])
                (Stage2.appendAt idx (Stage2.norm_key (pyStrip r.miejscowosc))
                  (pyStrip r.wojewodztwo, pyStrip r.powiat, pyStrip r.gmina)) by
            simp [Stage2.build_teryt_aux, hm, hk2]]
          rw [List.filter_cons_of_neg (by simp [hneg]), ih]
          by_cases hc : (canon.lookup (Stage2.norm_key (pyStrip r.miejscowosc))).isSome
          · rw [if_pos hc]
          · rw [if_neg hc, lookup_snoc_ne canon k _ _ hkk]

theorem build_teryt_aux_rows (k : String) (hk : k ≠ "") :
    ∀ (rows : List Stage2.TRow) (canon : List (String × String))
      (idx : List (String × List (String × String × String))),
    (((Stage2.build_teryt_aux rows canon idx).2.lookup k).getD []) =
      ((idx.lookup k).getD []) ++
        (rows.filter (terytKeyIs k)).map
          (fun r => (pyStrip r.wojewodztwo, pyStrip r.powiat, pyStrip r.gmina)) := by
  intro rows
  induction rows with
  | nil => intro canon idx; simp [Stage2.build_teryt_aux]
  | cons r rest ih =>
    intro canon idx
    by_cases hm : pyStrip r.miejscowosc = ""
    · have hnk : terytKeyIs k r = false := by
        unfold terytKeyIs
        rw [norm_key_eq_empty_of_strip hm]
        exact beq_eq_false_iff_ne.mpr (fun he => hk he.symm)
      rw [show Stage2.build_teryt_aux (r :: rest) canon idx =
          Stage2.build_teryt_aux rest canon idx by
        simp [Stage2.build_teryt_aux, hm]]
      rw [List.filter_cons_of_neg (by simp [hnk])]
      exact ih canon idx
    · by_cases hk2 : Stage2.norm_key (pyStrip r.miejscowosc) = ""
      · have hnk : terytKeyIs k r = false := by
          unfold terytKeyIs
          rw [← norm_key_pyStrip, hk2]
          exact beq_eq_false_iff_ne.mpr (fun he => hk he.symm)
        rw [show Stage2.build_teryt_aux (r :: rest) canon idx =
            Stage2.build_teryt_aux rest canon idx by
          simp [Stage2.build_teryt_aux, hm, hk2]]
        rw [List.filter_cons_of_neg (by simp [hnk])]
        exact ih canon idx
      · rw [show Stage2.build_teryt_aux (r :: rest) canon idx =
            Stage2.build_teryt_aux rest
              (if (canon.lookup (Stage2.norm_key (pyStrip r.miejscowosc))).isSome then canon
               else canon ++ [(Stage2.norm_key (pyStrip r.miejscowosc), pyStrip r.miejscowosc)])
              (Stage2.appendAt idx (Stage2.norm_key (pyStrip r.miejscowosc))
                (pyStrip r.wojewodztwo, pyStrip r.powiat, pyStrip r.gmina)) by
          simp [Stage2.build_teryt_aux, hm, hk2]]
        by_cases hkk : Stage2.norm_key (pyStrip r.miejscowosc) = k
        · have hpos : terytKeyIs k r = true := by
            unfold terytKeyIs
            rw [← norm_key_pyStrip, hkk]
            exact beq_self_eq_true k
          rw [List.filter_cons_of_pos hpos, ih, hkk, lookup_appendAt_self]
          simp
        · have hneg : terytKeyIs k r = false := by
            unfold terytKeyIs
            rw [← norm_key_pyStrip]
            exact beq_eq_false_iff_ne.mpr hkk
          rw [List.filter_cons_of_neg (by simp [hneg]), ih, lookup_appendAt_ne _ _ _ _ hkk]

theorem C7_build_teryt_index (rows : List Stage2.TRow) (k : String) (hk : k ≠ "") :
    (Stage2.build_teryt_index rows).1.lookup k =
      ((rows.filter (terytKeyIs k)).map (fun r => pyStrip r.miejscowosc)).head? ∧
    (((Stage2.build_teryt_index rows).2.lookup k).getD []) =
      (rows.filter (terytKeyIs k)).map
        (fun r => (pyStrip r.wojewodztwo, pyStrip r.powiat, pyStrip r.gmina)) := by
  constructor
  · rw [Stage2.build_teryt_index, build_teryt_aux_canon k hk]
    simp [List.lookup]
  · rw [Stage2.build_teryt_index, build_teryt_aux_rows k hk]
    simp [List.lookup]

theorem C7_build_teryt_index_witness :
    (("warszawa" : String) ≠ "" ∧
      (Stage2.build_teryt_index
        [⟨"WOJ1", "POW1", "GMI1", "Warszawa"⟩, ⟨"W2", "P2", "G2", ""⟩,
         ⟨"WOJ3", "POW3", "GMI3", "WARSZAWA "⟩]).1.lookup "warszawa" = some "Warszawa") ∧
    (((Stage2.build_teryt_index
        [⟨"WOJ1", "POW1", "GMI1", "Warszawa"⟩, ⟨"W2", "P2", "G2", ""⟩,
         ⟨"WOJ3", "POW3", "GMI3", "WARSZAWA "⟩]).2.lookup "warszawa").getD []) =
      [("WOJ1", "POW1", "GMI1"), ("WOJ3", "POW3", "GMI3")] := by
  have h := C7_build_teryt_index
    [⟨"WOJ1", "POW1", "GMI1", "Warszawa"⟩, ⟨"W2", "P2", "G2", ""⟩,
     ⟨"WOJ3", "POW3", "GMI3", "WARSZAWA "⟩] "warszawa" (by decide)
  exact ⟨⟨by decide, h.1.trans (by decide)⟩, h.2.trans (by decide)⟩

/-! ### Claim C8: unique region per jurisdiction code -/

theorem mem_dedupAux : ∀ (l seen : List String) (x : String),
    x ∈ Stage2.dedupAux l seen ↔ x ∈ l ∧ x ∉ seen := by
  intro l
  induction l with
  | nil => intro seen x; simp [Stage2.dedupAux]
  | cons a rest ih =>
    intro seen x
    by_cases h : a ∈ seen
    · rw [Stage2.dedupAux, if_pos h, ih]
      constructor
      · rintro ⟨h1, h2⟩
        exact ⟨List.mem_cons_of_mem _ h1, h2⟩
      · rintro ⟨h1, h2⟩
        rcases List.mem_cons.mp h1 with rfl | h1
        · exact absurd h h2
        · exact ⟨h1, h2⟩
    · rw [Stage2.dedupAux, if_neg h]
      simp only [List.mem_cons, ih, List.mem_cons]
      constructor
      · rintro (rfl | ⟨h1, h2⟩)
        · exact ⟨Or.inl rfl, h⟩
        · exact ⟨Or.inr h1, fun hx => h2 (Or.inr hx)⟩
      · rintro ⟨h1 | h1, h2⟩
        · exact Or.inl h1
        · by_cases hxa : x = a
          · exact Or.inl hxa
          · exact Or.inr ⟨h1, fun hx => (by
              rcases hx with hx | hx
              · exact hxa hx
              · exact h2 hx)⟩

theorem nodup_dedupAux : ∀ (l seen : List String), (Stage2.dedupAux l seen).Nodup := by
  intro l
  induction l with
  | nil => intro seen; simp [Stage2.dedupAux]
  | cons a rest ih =>
    intro seen
    by_cases h : a ∈ seen
    · rw [Stage2.dedupAux, if_pos h]; exact ih _
    · rw [Stage2.dedupAux, if_neg h]
      refine List.nodup_cons.mpr ⟨?_, ih _⟩
      intro hmem
      exact ((mem_dedupAux rest _ a).mp hmem).2 (List.mem_cons_self _ _)

theorem mem_dedupFirst (l : List String) (x : String) :
    x ∈ Stage2.dedupFirst l ↔ x ∈ l := by
  rw [Stage2.dedupFirst, mem_dedupAux]
  simp

theorem nodup_dedupFirst (l : List String) : (Stage2.dedupFirst l).Nodup :=
  nodup_dedupAux l []

theorem dedupFirst_length_eq_of_mem_iff {a b : List String} (h : ∀ x, x ∈ a ↔ x ∈ b) :
    (Stage2.dedupFirst a).length = (Stage2.dedupFirst b).length :=
  ((List.perm_ext_iff_of_nodup (nodup_dedupFirst a) (nodup_dedupFirst b)).mpr
    (fun x => by rw [mem_dedupFirst, mem_dedupFirst]; exact h x)).length_eq

/-- Modelled from the claim's words: the set of distinct non-empty
Region values among a code's rows (trimmed, with the `"nan"` artefact
excluded, in first-occurrence order), used to compare the code's
raw-value-first deduplication with the specification's notion of the
distinct-region set. -/
def specDistinctRegions (cells : List (Option String)) : List String :=
  Stage2.dedupFirst (((cells.filterMap id).map pyStrip).filter
    (fun w => w ≠ "" && !(lowerStr w == "nan")))

theorem C8_obszar_unique_region (cells : List (Option String)) :
    ((Stage2.obszarUniqueWoj cells).isSome ↔ (specDistinctRegions cells).length = 1) ∧
    (∀ w, Stage2.obszarUniqueWoj cells = some w → w ∈ specDistinctRegions cells) ∧
    (2 ≤ (specDistinctRegions cells).length → Stage2.obszarUniqueWoj cells = none) := by
  have hmem : ∀ x,
      x ∈ ((Stage2.dedupFirst (cells.filterMap id)).map pyStrip).filter
        (fun w => w ≠ "" && !(lowerStr w == "nan")) ↔
      x ∈ ((cells.filterMap id).map pyStrip).filter
        (fun w => w ≠ "" && !(lowerStr w == "nan")) := by
    intro x
    simp only [List.mem_filter, List.mem_map, mem_dedupFirst]
  have hlen :
      (Stage2.dedupFirst (((Stage2.dedupFirst (cells.filterMap id)).map pyStrip).filter
        (fun w => w ≠ "" && !(lowerStr w == "nan")))).length =
      (specDistinctRegions cells).length :=
    dedupFirst_length_eq_of_mem_iff hmem
  unfold Stage2.obszarUniqueWoj
  refine ⟨?_, ?_, ?_⟩
  · by_cases hc : (Stage2.dedupFirst (((Stage2.dedupFirst (cells.filterMap id)).map
        pyStrip).filter (fun w => w ≠ "" && !(lowerStr w == "nan")))).length = 1
    · rw [if_pos hc, ← hlen, hc]
      simp only [iff_true]
      cases hv : ((Stage2.dedupFirst (cells.filterMap id)).map pyStrip).filter
          (fun w => w ≠ "" && !(lowerStr w == "nan")) with
      | nil =>
        rw [hv] at hc
        simp [Stage2.dedupFirst, Stage2.dedupAux] at hc
      | cons y ys => simp
    · rw [if_neg hc, ← hlen]
      exact iff_of_false (by simp) hc
  · intro w hw
    by_cases hc : (Stage2.dedupFirst (((Stage2.dedupFirst (cells.filterMap id)).map
        pyStrip).filter (fun w => w ≠ "" && !(lowerStr w == "nan")))).length = 1
    · rw [if_pos hc] at hw
      have hmem2 : w ∈ ((Stage2.dedupFirst (cells.filterMap id)).map pyStrip).filter
          (fun w => w ≠ "" && !(lowerStr w == "nan")) := by
        cases hv : ((Stage2.dedupFirst (cells.filterMap id)).map pyStrip).filter
            (fun w => w ≠ "" && !(lowerStr w == "nan")) with
        | nil => rw [hv] at hw; simp at hw
        | cons y ys =>
          rw [hv] at hw
          simp only [List.head?_cons, Option.some.injEq] at hw
          rw [← hw]
          exact List.mem_cons_self _ _
      rw [specDistinctRegions, mem_dedupFirst]
      exact (hmem w).mp hmem2
    · rw [if_neg hc] at hw
      exact absurd hw (by simp)
  · intro h2
    rw [if_neg (by rw [hlen]; omega)]

theorem C8_obszar_unique_region_witness :
    Stage2.obszarUniqueWoj [some "MAZOWIECKIE", some "ŁÓDZKIE"] = none ∧
    "X" ∈ specDistinctRegions [some "X", some " X "] :=
  ⟨(C8_obszar_unique_region [some "MAZOWIECKIE", some "ŁÓDZKIE"]).2.2 (by decide),
   (C8_obszar_unique_region [some "X", some " X "]).2.1 "X" (by decide)⟩

/-! ### Claims C1, C2, C6: the Record Completion Engine -/

theorem norm_missing_ne_empty (x : String) : Stage2.norm_missing x ≠ some "" := by
  show (if lowerStr (pyStrip x) ∈ Stage2.MISSING_TOKENS then none
    else some (pyStrip x)) ≠ some ""
  by_cases h : lowerStr (pyStrip x) ∈ Stage2.MISSING_TOKENS
  · rw [if_pos h]; simp
  · rw [if_neg h]
    intro hc
    simp only [Option.some.injEq] at hc
    apply h
    rw [hc]
    decide

theorem truthy_normMissingOpt {x : Option String} (h : Stage2.normMissingOpt x ≠ none) :
    truthyO (Stage2.normMissingOpt x) = true := by
  cases hx : Stage2.normMissingOpt x with
  | none => exact absurd hx h
  | some s =>
    have hs : s ≠ "" := by
      intro he
      subst he
      cases x with
      | none => simp [Stage2.normMissingOpt] at hx
      | some y =>
        exact norm_missing_ne_empty y (by simpa [Stage2.normMissingOpt] using hx)
    simp [truthyO, hs]

theorem step1_keep (cfg : Stage2.Indexes) (r : Stage2.Row) (w0 c0 : Option String) :
    (Stage2.step1 cfg r w0 c0).1.pow = r.pow ∧ (Stage2.step1 cfg r w0 c0).1.gmi = r.gmi ∧
    (Stage2.step1 cfg r w0 c0).1.mia = r.mia ∧ (Stage2.step1 cfg r w0 c0).1.kw = r.kw ∧
    (Stage2.step1 cfg r w0 c0).1.hintCells = r.hintCells := by
  unfold Stage2.step1
  split
  · exact ⟨rfl, rfl, rfl, rfl, rfl⟩
  · split
    · exact ⟨rfl, rfl, rfl, rfl, rfl⟩
    · split <;> exact ⟨rfl, rfl, rfl, rfl, rfl⟩

theorem step1_id (cfg : Stage2.Indexes) (r : Stage2.Row) (w0 c0 : Option String)
    (h : truthyO w0 = true) : Stage2.step1 cfg r w0 c0 = (r, w0) := by
  unfold Stage2.step1
  split
  · rfl
  · rw [if_pos h]

theorem step1_fire (cfg : Stage2.Indexes) (r : Stage2.Row) (w0 : Option String) (cc w : String)
    (h : truthyO w0 = false) (hl : cfg.courtToWoj.lookup cc = some w) :
    Stage2.step1 cfg r w0 (some cc) = ({ r with woj := some (Stage2.title_pl w) }, some w) := by
  show (if truthyO w0 = true then (r, w0)
    else match cfg.courtToWoj.lookup cc with
      | some w => ({ r with woj := some (Stage2.title_pl w) }, some w)
      | none => (r, w0)) = _
  rw [if_neg (by simp [h]), hl]

theorem step2_keep (cfg : Stage2.Indexes) (r : Stage2.Row) (m0 : Option String) (hint : String) :
    (Stage2.step2 cfg r m0 hint).1.woj = r.woj ∧ (Stage2.step2 cfg r m0 hint).1.pow = r.pow ∧
    (Stage2.step2 cfg r m0 hint).1.gmi = r.gmi ∧ (Stage2.step2 cfg r m0 hint).1.kw = r.kw ∧
    (Stage2.step2 cfg r m0 hint).1.hintCells = r.hintCells := by
  unfold Stage2.step2
  split
  · exact ⟨rfl, rfl, rfl, rfl, rfl⟩
  · split
    · exact ⟨rfl, rfl, rfl, rfl, rfl⟩
    · split <;> exact ⟨rfl, rfl, rfl, rfl, rfl⟩

theorem step2_id (cfg : Stage2.Indexes) (r : Stage2.Row) (m0 : Option String) (hint : String)
    (h : truthyO m0 = true) : Stage2.step2 cfg r m0 hint = (r, m0) := by
  unfold Stage2.step2
  rw [if_pos h]

theorem step2_none (cfg : Stage2.Indexes) (r : Stage2.Row) (m0 : Option String) (hint : String)
    (h : truthyO m0 = false)
    (hg : Stage2.guess_miejscowosc_from_hint hint cfg.terytKeys cfg.terytCanon = none) :
    Stage2.step2 cfg r m0 hint = (r, m0) := by
  unfold Stage2.step2
  rw [if_neg (by simp [h]), hg]

theorem step2_fire (cfg : Stage2.Indexes) (r : Stage2.Row) (m0 : Option String) (hint g : String)
    (h : truthyO m0 = false) (hne : g ≠ "")
    (hg : Stage2.guess_miejscowosc_from_hint hint cfg.terytKeys cfg.terytCanon = some g) :
    Stage2.step2 cfg r m0 hint = ({ r with mia := some (Stage2.title_pl g) }, some g) := by
  unfold Stage2.step2
  rw [if_neg (by simp [h]), hg]
  show (if g = "" then (r, m0) else _) = _
  rw [if_neg hne]

theorem step3_id (cfg : Stage2.Indexes) (r : Stage2.Row) (mia woj pw gm c0 : Option String)
    (hint : String) (h : truthyO mia = true) :
    Stage2.step3 cfg r mia woj pw gm c0 hint = ⟨r, mia, woj, pw, gm⟩ := by
  unfold Stage2.step3
  rw [if_pos h]

theorem step3_woj_keep (cfg : Stage2.Indexes) (r : Stage2.Row) (mia woj pw gm c0 : Option String)
    (hint : String) (hw : truthyO woj = true) :
    (Stage2.step3 cfg r mia woj pw gm c0 hint).row.woj = r.woj ∧
    (Stage2.step3 cfg r mia woj pw gm c0 hint).woj = woj := by
  unfold Stage2.step3
  split
  · exact ⟨rfl, rfl⟩
  · split
    · exact ⟨rfl, rfl⟩
    · split
      · exact ⟨rfl, rfl⟩
      · split
        · exact ⟨rfl, rfl⟩
        · split
          · exact ⟨rfl, rfl⟩
          · simp only [hw, Bool.not_true, Bool.false_and, Bool.false_eq_true, if_false]
            constructor
            · split <;> split <;> rfl
            · trivial

theorem step3_pow_keep (cfg : Stage2.Indexes) (r : Stage2.Row) (mia woj pw gm c0 : Option String)
    (hint : String) (hp : truthyO pw = true) :
    (Stage2.step3 cfg r mia woj pw gm c0 hint).row.pow = r.pow ∧
    (Stage2.step3 cfg r mia woj pw gm c0 hint).pow = pw := by
  unfold Stage2.step3
  split
  · exact ⟨rfl, rfl⟩
  · split
    · exact ⟨rfl, rfl⟩
    · split
      · exact ⟨rfl, rfl⟩
      · split
        · exact ⟨rfl, rfl⟩
        · split
          · exact ⟨rfl, rfl⟩
          · simp only [hp, Bool.not_true, Bool.false_and, Bool.false_eq_true, if_false]
            constructor
            · split <;> split <;> rfl
            · trivial

theorem step3_gmi_keep (cfg : Stage2.Indexes) (r : Stage2.Row) (mia woj pw gm c0 : Option String)
    (hint : String) (hg : truthyO gm = true) :
    (Stage2.step3 cfg r mia woj pw gm c0 hint).row.gmi = r.gmi ∧
    (Stage2.step3 cfg r mia woj pw gm c0 hint).gmi = gm := by
  unfold Stage2.step3
  split
  · exact ⟨rfl, rfl⟩
  · split
    · exact ⟨rfl, rfl⟩
    · split
      · exact ⟨rfl, rfl⟩
      · split
        · exact ⟨rfl, rfl⟩
        · split
          · exact ⟨rfl, rfl⟩
          · simp only [hg, Bool.not_true, Bool.false_and, Bool.false_eq_true, if_false]
            constructor
            · split <;> split <;> rfl
            · trivial

theorem step4_mia_keep (cfg : Stage2.Indexes) (r : Stage2.Row) (mia woj pw gm : Option String) :
    (Stage2.step4 cfg r mia woj pw gm).mia = r.mia := by
  unfold Stage2.step4
  split
  · rfl
  · simp only []
    split <;> split <;> split <;> rfl

theorem step4_woj_keep (cfg : Stage2.Indexes) (r : Stage2.Row) (mia woj pw gm : Option String)
    (hw : truthyO woj = true) : (Stage2.step4 cfg r mia woj pw gm).woj = r.woj := by
  unfold Stage2.step4
  split
  · rfl
  · simp only [hw, Bool.not_true, Bool.false_and, Bool.false_eq_true, if_false]
    split <;> split <;> rfl

theorem step4_pow_keep (cfg : Stage2.Indexes) (r : Stage2.Row) (mia woj pw gm : Option String)
    (hp : truthyO pw = true) : (Stage2.step4 cfg r mia woj pw gm).pow = r.pow := by
  unfold Stage2.step4
  split
  · rfl
  · simp only [hp, Bool.not_true, Bool.false_and, Bool.false_eq_true, if_false]
    split <;> split <;> rfl

theorem step4_gmi_keep (cfg : Stage2.Indexes) (r : Stage2.Row) (mia woj pw gm : Option String)
    (hg : truthyO gm = true) : (Stage2.step4 cfg r mia woj pw gm).gmi = r.gmi := by
  unfold Stage2.step4
  split
  · rfl
  · simp only [hg, Bool.not_true, Bool.false_and, Bool.false_eq_true, if_false]
    split <;> split <;> rfl

theorem step4_id3 (cfg : Stage2.Indexes) (r : Stage2.Row) (mia woj pw gm : Option String)
    (hw : truthyO woj = true) (hp : truthyO pw = true) (hg : truthyO gm = true) :
    Stage2.step4 cfg r mia woj pw gm = r := by
  unfold Stage2.step4
  split
  · rfl
  · simp only [hw, hp, hg, Bool.not_true, Bool.false_and, Bool.false_eq_true, if_false]

theorem step3_fire (cfg : Stage2.Indexes) (r : Stage2.Row) (mia woj pw gm : Option String)
    (cc g : String) (mmap : List (String × (String × String × String × String)))
    (hint : String)
    (hm : truthyO mia = false)
    (hl : cfg.courtToMiejsc.lookup cc = some mmap)
    (hg : Stage2.guess_miejscowosc_from_hint hint (mmap.map Prod.fst)
      (mmap.map (fun p => (p.1, p.2.2.2.2))) = some g)
    (hne : g ≠ "") :
    (Stage2.step3 cfg r mia woj pw gm (some cc) hint).row.mia = some (Stage2.title_pl g) ∧
    (Stage2.step3 cfg r mia woj pw gm (some cc) hint).mia = some g := by
  unfold Stage2.step3
  rw [if_neg (by simp [hm])]
  simp only [hl, hg]
  rw [if_neg hne]
  constructor
  · simp only []
    split <;> split <;> split <;> rfl
  · rfl

theorem C2_no_overwrite (cfg : Stage2.Indexes) (r : Stage2.Row) :
    (Stage2.normMissingOpt r.woj ≠ none → (Stage2.completeRecord cfg r).woj = r.woj) ∧
    (Stage2.normMissingOpt r.pow ≠ none → (Stage2.completeRecord cfg r).pow = r.pow) ∧
    (Stage2.normMissingOpt r.gmi ≠ none → (Stage2.completeRecord cfg r).gmi = r.gmi) ∧
    (Stage2.normMissingOpt r.mia ≠ none → (Stage2.completeRecord cfg r).mia = r.mia) ∧
    ((Stage2.normMissingOpt r.woj ≠ none ∧ Stage2.normMissingOpt r.pow ≠ none ∧
      Stage2.normMissingOpt r.gmi ≠ none ∧ Stage2.normMissingOpt r.mia ≠ none) →
      Stage2.completeRecord cfg r = r) := by
  refine ⟨?_, ?_, ?_, ?_, ?_⟩
  · intro hwoj
    have hw0 := truthy_normMissingOpt hwoj
    unfold Stage2.completeRecord
    simp only [step1_id cfg r _ _ hw0]
    rw [(step3_woj_keep cfg _ _ _ _ _ _ _ hw0).2, step4_woj_keep cfg _ _ _ _ _ hw0,
      (step3_woj_keep cfg _ _ _ _ _ _ _ hw0).1, (step2_keep cfg r _ _).1]
  · intro hpow
    have hp0 := truthy_normMissingOpt hpow
    unfold Stage2.completeRecord
    simp only []
    rw [(step3_pow_keep cfg _ _ _ _ _ _ _ hp0).2, step4_pow_keep cfg _ _ _ _ _ hp0,
      (step3_pow_keep cfg _ _ _ _ _ _ _ hp0).1, (step2_keep cfg _ _ _).2.1,
      (step1_keep cfg r _ _).1]
  · intro hgmi
    have hg0 := truthy_normMissingOpt hgmi
    unfold Stage2.completeRecord
    simp only []
    rw [(step3_gmi_keep cfg _ _ _ _ _ _ _ hg0).2, step4_gmi_keep cfg _ _ _ _ _ hg0,
      (step3_gmi_keep cfg _ _ _ _ _ _ _ hg0).1, (step2_keep cfg _ _ _).2.2.1,
      (step1_keep cfg r _ _).2.1]
  · intro hmia
    have hm0 := truthy_normMissingOpt hmia
    unfold Stage2.completeRecord
    simp only [step2_id cfg _ _ _ hm0]
    rw [step3_id cfg _ _ _ _ _ _ _ hm0]
    rw [step4_mia_keep]
    rw [(step1_keep cfg r _ _).2.2.1]
  · rintro ⟨hwoj, hpow, hgmi, hmia⟩
    have hw0 := truthy_normMissingOpt hwoj
    have hp0 := truthy_normMissingOpt hpow
    have hg0 := truthy_normMissingOpt hgmi
    have hm0 := truthy_normMissingOpt hmia
    unfold Stage2.completeRecord
    simp only [step1_id cfg r _ _ hw0]
    simp only [step2_id cfg _ _ _ hm0]
    rw [step3_id cfg _ _ _ _ _ _ _ hm0]
    exact step4_id3 cfg _ _ _ _ _ hw0 hp0 hg0

theorem C1_global_before_jurisdiction (cfg : Stage2.Indexes) (r : Stage2.Row)
    (hmia : Stage2.normMissingOpt r.mia = none) :
    (∀ g : String, g ≠ "" →
      Stage2.guess_miejscowosc_from_hint (Stage2.build_hint_text r.hintCells)
        cfg.terytKeys cfg.terytCanon = some g →
      (Stage2.completeRecord cfg r).mia = some (Stage2.title_pl g)) ∧
    (Stage2.guess_miejscowosc_from_hint (Stage2.build_hint_text r.hintCells)
        cfg.terytKeys cfg.terytCanon = none →
      ∀ (cc g : String) (mmap : List (String × (String × String × String × String))),
        Stage2.extract_court_code r.kw = some cc →
        cfg.courtToMiejsc.lookup cc = some mmap →
        g ≠ "" →
        Stage2.guess_miejscowosc_from_hint (Stage2.build_hint_text r.hintCells)
          (mmap.map Prod.fst) (mmap.map (fun p => (p.1, p.2.2.2.2))) = some g →
        (Stage2.completeRecord cfg r).mia = some (Stage2.title_pl g)) := by
  constructor
  · intro g hne hg
    have hgt : truthyO (some g) = true := by simp [truthyO, hne]
    unfold Stage2.completeRecord
    simp only [hmia]
    rw [step2_fire cfg _ none _ g rfl hne hg]
    simp only []
    rw [step3_id cfg _ _ _ _ _ _ _ hgt]
    rw [step4_mia_keep]
  · intro hnone cc g mmap hcc hl hne hg
    unfold Stage2.completeRecord
    simp only [hmia, hcc]
    rw [step2_none cfg _ none _ rfl hnone]
    simp only []
    rw [step4_mia_keep]
    exact (step3_fire cfg _ none _ _ _ cc g mmap _ rfl hl hg hne).1

/-- C1 counterexample fixture: the hint `"Warszawa"` matches both the
global index (canonical `"WARSZAWA-G"`) and the WR1K jurisdiction index
(canonical `"Warszawa-L"`). -/
def c1Cfg : Stage2.Indexes :=
  { terytKeys := ["warszawa"], terytCanon := [("warszawa", "WARSZAWA-G")],
    terytRows := [], courtToWoj := [],
    courtToMiejsc := [("WR1K", [("warszawa", ("WOJ-L", "POW-L", "GMI-L", "Warszawa-L"))])] }

/-- C1 counterexample fixture: a record with every administrative field
missing and a WR1K registry number. -/
def c1Rec : Stage2.Row :=
  { woj := none, pow := none, gmi := none, mia := none,
    kw := "WR1K/00012345/6", hintCells := [some "Warszawa"] }

/-- C1 counterexample: on `c1Rec` the code fills the locality from the
GLOBAL index (`"WARSZAWA-G"`), while the jurisdiction-first order the
claim describes would fill `"Warszawa-L"` — so the two orders are
observably different and the claim's order is not the code's. -/
theorem C1_order_counterexample :
    Stage2.completeRecord c1Cfg c1Rec ≠ Stage2.completeRecordClaimOrder c1Cfg c1Rec ∧
    (Stage2.completeRecord c1Cfg c1Rec).mia = some "WARSZAWA-G" ∧
    (Stage2.completeRecordClaimOrder c1Cfg c1Rec).mia = some "Warszawa-L" := by
  decide

/-- Witness for the amended C1 at the concrete fixture. -/
theorem C1_global_before_jurisdiction_witness :
    (Stage2.completeRecord c1Cfg c1Rec).mia = some (Stage2.title_pl "WARSZAWA-G") :=
  (C1_global_before_jurisdiction c1Cfg c1Rec rfl).1 "WARSZAWA-G" (by decide) (by decide)

theorem C6_jurisdiction_region_fill (cfg : Stage2.Indexes) (r : Stage2.Row)
    (hwoj : Stage2.normMissingOpt r.woj = none)
    (hkw : r.kw = "WR1K/00012345/6")
    (hl : cfg.courtToWoj.lookup "WR1K" = some "DOLNOŚLĄSKIE") :
    (Stage2.completeRecord cfg r).woj = some (Stage2.title_pl "DOLNOŚLĄSKIE") ∧
    (Stage2.completeRecord cfg r).woj = some "DOLNOŚLĄSKIE" := by
  have hcc : Stage2.extract_court_code "WR1K/00012345/6" = some "WR1K" := by decide
  have ht : truthyO (some "DOLNOŚLĄSKIE") = true := by decide
  have hfill : (Stage2.completeRecord cfg r).woj = some (Stage2.title_pl "DOLNOŚLĄSKIE") := by
    unfold Stage2.completeRecord
    simp only [hwoj, hkw, hcc]
    rw [step1_fire cfg r none "WR1K" _ rfl hl]
    simp only []
    rw [(step3_woj_keep cfg _ _ _ _ _ _ _ ht).2, step4_woj_keep cfg _ _ _ _ _ ht,
      (step3_woj_keep cfg _ _ _ _ _ _ _ ht).1, (step2_keep cfg _ _ _).1]
  exact ⟨hfill, hfill.trans (by decide)⟩

/-- C6 counterexample fixture: jurisdiction index mapping WR1K to the
all-caps region value the claim quotes. -/
def c6Cfg : Stage2.Indexes :=
  { terytKeys := [], terytCanon := [], terytRows := [],
    courtToWoj := [("WR1K", "DOLNOŚLĄSKIE")], courtToMiejsc := [] }

/-- C6 counterexample fixture: a record with unknown region and
registry number WR1K/00012345/6. -/
def c6Rec : Stage2.Row :=
  { woj := none, pow := none, gmi := none, mia := none,
    kw := "WR1K/00012345/6", hintCells := [] }

/-- C6 counterexample: `title_pl` leaves the all-caps table value
`"DOLNOŚLĄSKIE"` unchanged, so the record is filled with
`"DOLNOŚLĄSKIE"`, not the mixed-case `"Dolnośląskie"` the claim
asserts. -/
theorem C6_display_case_counterexample :
    (Stage2.completeRecord c6Cfg c6Rec).woj = some "DOLNOŚLĄSKIE" ∧
    (Stage2.completeRecord c6Cfg c6Rec).woj ≠ some "Dolnośląskie" := by
  decide

/-- Witness for the amended C6 at the concrete fixture. -/
theorem C6_jurisdiction_region_fill_witness :
    (Stage2.completeRecord c6Cfg c6Rec).woj = some (Stage2.title_pl "DOLNOŚLĄSKIE") ∧
    (Stage2.completeRecord c6Cfg c6Rec).woj = some "DOLNOŚLĄSKIE" :=
  C6_jurisdiction_region_fill c6Cfg c6Rec rfl rfl (by decide)

/-- Witness for C2 on a fully-filled record: nothing changes. -/
theorem C2_no_overwrite_witness :
    Stage2.normMissingOpt (some "Mazowieckie") ≠ none ∧
    Stage2.completeRecord
      ⟨[], [], [], [], []⟩
      ⟨some "Mazowieckie", some "warszawski", some "Warszawa", some "Warszawa",
        "WA1M/00000001/2", [some "ul. Prosta 1"]⟩ =
      ⟨some "Mazowieckie", some "warszawski", some "Warszawa", some "Warszawa",
        "WA1M/00000001/2", [some "ul. Prosta 1"]⟩ :=
  ⟨by decide,
    (C2_no_overwrite ⟨[], [], [], [], []⟩
      ⟨some "Mazowieckie", some "warszawski", some "Warszawa", some "Warszawa",
        "WA1M/00000001/2", [some "ul. Prosta 1"]⟩).2.2.2.2
      ⟨by decide, by decide, by decide, by decide⟩⟩
